import Mathlib

/-!
# Book Shelf Explorer service worker (`sw.js`, version v7)

A shallow embedding of the offline resource cache manager of `src/sw.js`:
the namespaced cache store, the timestamp headers, the eviction trimmer,
the strategy executors, the fetch handler that dispatches to them, and
the install, activate and message listeners.

Asynchronous code is modelled by explicit state passing.  Everything the
platform decides (how the network fetch settles and after how long, the
navigation-preload promise, the clock readings, whether a store write
succeeds) is a field of `Env`; the cache store is passed in and returned,
and every executor also returns the list of platform calls it issued.
A `cache.put` that the source does not await is applied to the store
before the executor's result is reported, and before a trim that the
source starts after it.
-/

namespace SW

/-! ## Responses and headers -/

/-- A response object.  Header names are kept lower-cased, as a `Headers`
object keeps them. -/
structure Response where
  status : Nat
  statusText : String
  headers : List (String × String)
  body : String
deriving DecidableEq, Repr, Inhabited

/-- The getter `resp.ok`: the status is in the range 200 to 299. -/
def Response.ok (r : Response) : Bool := decide (200 ≤ r.status) && decide (r.status ≤ 299)

/-- The value of `Response.error()`: a network-error response, status 0. -/
def Response.error : Response :=
  { status := 0, statusText := "", headers := [], body := "" }

/-- The null body statuses of the Fetch standard. -/
def nullBodyStatus (status : Nat) : Bool :=
  status == 101 || status == 103 || status == 204 || status == 205 || status == 304

/-- The constructor call `new Response(body, {status, statusText, headers})`
with a non-null body (a blob or a string).  It throws (`none`) when the
status is outside 200..599 or is a null body status. -/
def newResponse (body : String) (status : Nat) (statusText : String)
    (headers : List (String × String)) : Option Response :=
  if status < 200 ∨ 599 < status then none
  else if nullBodyStatus status then none
  else some { status := status, statusText := statusText, headers := headers, body := body }

/-- The call `headers.get(name)`: `none` (null) when no header has the name,
otherwise the values of that name joined by a comma and a space. -/
def Headers.get (h : List (String × String)) (name : String) : Option String :=
  match (h.filter (fun p => p.1 == name)).map (fun p => p.2) with
  | [] => none
  | v :: vs => some (", ".intercalate (v :: vs))

/-- Drop every header called `name`. -/
def Headers.remove (h : List (String × String)) (name : String) : List (String × String) :=
  h.filter (fun p => !(p.1 == name))

/-- The call `headers.set(name, value)`: the first header called `name` gets
the value and the other ones of that name are removed; without such a
header the pair is appended. -/
def Headers.set : List (String × String) → String → String → List (String × String)
  | [], name, value => [(name, value)]
  | (n, v) :: t, name, value =>
    if n == name then (name, value) :: Headers.remove t name
    else (n, v) :: Headers.set t name value

/-! ## Numbers in headers -/

/-- The white space that `parseInt` skips at the start of its input. -/
def isJsWhiteSpace (c : Char) : Bool :=
  let n := c.toNat
  n == 0x09 || n == 0x0A || n == 0x0B || n == 0x0C || n == 0x0D || n == 0x20 ||
  n == 0xA0 || n == 0x1680 || (decide (0x2000 ≤ n) && decide (n ≤ 0x200A)) ||
  n == 0x2028 || n == 0x2029 || n == 0x202F || n == 0x205F || n == 0x3000 || n == 0xFEFF

/-- The value of a list of decimal digits, most significant first. -/
def digitsValue (ds : List Char) : Nat :=
  ds.foldl (fun acc c => 10 * acc + (c.toNat - 48)) 0

/-- The call `parseInt(s, 10)`: leading white space is skipped, one sign is
read, then the longest run of decimal digits; `none` stands for NaN (no
digit).  Values are exact integers (clock values are far below 2^53). -/
def parseInt (s : String) : Option Int :=
  let cs := s.toList.dropWhile isJsWhiteSpace
  let signed : Bool × List Char :=
    match cs with
    | '-' :: t => (true, t)
    | '+' :: t => (false, t)
    | _ => (false, cs)
  let ds := signed.2.takeWhile Char.isDigit
  if ds.isEmpty then none
  else if signed.1 then some (- (digitsValue ds : Int)) else some (digitsValue ds : Int)

/-! ## Requests -/

/-- A request as the fetch handler sees it: `origin`, `pathname` and
`hostname` are the components of `new URL(req.url)`.  The request's
identity as a cache key is its URL. -/
structure Request where
  method : String
  mode : String
  url : String
  origin : String
  pathname : String
  hostname : String
deriving DecidableEq, Repr, Inhabited

/-! ## The namespaced cache store -/

/-- One cache (namespace): its entries in insertion order, keyed by URL. -/
abbrev Cache := List (String × Response)

/-- The call `cache.keys()`: the keys in insertion order. -/
def Cache.keys (c : Cache) : List String := c.map (fun e => e.1)

/-- The call `cache.match(req)`: the stored response, `none` for undefined. -/
def Cache.matchKey (c : Cache) (url : String) : Option Response :=
  (c.find? (fun e => e.1 == url)).map (fun e => e.2)

/-- The call `cache.delete(req)`. -/
def Cache.delete (c : Cache) (url : String) : Cache :=
  c.filter (fun e => !(e.1 == url))

/-- The call `cache.put(req, resp)`: an entry of the same key is removed and
the new entry is appended. -/
def Cache.put (c : Cache) (url : String) (r : Response) : Cache :=
  Cache.delete c url ++ [(url, r)]

/-- The cache storage (`caches`): the namespaces by name, in creation order. -/
abbrev CacheStorage := List (String × Cache)

/-- The call `caches.keys()`. -/
def CacheStorage.keys (s : CacheStorage) : List String := s.map (fun e => e.1)

/-- The call `caches.open(name)`: the namespace is created empty when it
does not exist. -/
def CacheStorage.open (s : CacheStorage) (name : String) : CacheStorage :=
  if s.any (fun e => e.1 == name) then s else s ++ [(name, [])]

/-- The entries of the namespace `name` (none when it does not exist). -/
def CacheStorage.cacheOf (s : CacheStorage) (name : String) : Cache :=
  match s.find? (fun e => e.1 == name) with
  | some e => e.2
  | none => []

/-- Apply `f` to the namespace `name`. -/
def CacheStorage.modify (s : CacheStorage) (name : String) (f : Cache → Cache) : CacheStorage :=
  s.map (fun e => if e.1 == name then (e.1, f e.2) else e)

/-- The call `caches.match(req)`: the first namespace, in creation order,
that holds the key answers. -/
def CacheStorage.matchAny (s : CacheStorage) (url : String) : Option Response :=
  s.findSome? (fun e => Cache.matchKey e.2 url)

/-- The call `caches.delete(name)`. -/
def CacheStorage.delete (s : CacheStorage) (name : String) : CacheStorage :=
  s.filter (fun e => !(e.1 == name))

/-- A `cache.put(req, resp)` on the namespace `name`; a write that fails
(`putOk = false`: exhausted quota, or a response the platform refuses to
store, such as one with status 206 or with `Vary: *`) leaves the store as
it is. -/
def CacheStorage.put (s : CacheStorage) (putOk : Bool) (name url : String) (r : Response) :
    CacheStorage :=
  if putOk then s.modify name (fun c => Cache.put c url r) else s

/-! ## Constants of the worker -/

def SW_VERSION : String := "v7"

/-- The table `CACHE_NAMES`. -/
structure CacheNames where
  shell : String
  pages : String
  assets : String
  images : String
  api : String

def CACHE_NAMES : CacheNames :=
  { shell := "bse-shell-" ++ SW_VERSION
    pages := "bse-pages-" ++ SW_VERSION
    assets := "bse-assets-" ++ SW_VERSION
    images := "bse-img"
    api := "bse-api-runtime" }

/-- Thirty days, in milliseconds. -/
def MAX_IMAGE_AGE : Nat := 1000 * 60 * 60 * 24 * 30
/-- Six hours, in milliseconds. -/
def MAX_API_AGE : Nat := 1000 * 60 * 60 * 6
def MAX_API_ENTRIES : Nat := 80
def MAX_IMAGE_ENTRIES : Nat := 120

/-- The inline document of `offlineFallbackResponse`. -/
def offlineHtml : String :=
  "<!doctype html><html lang=\"en\"><head><meta charset=\"utf-8\"/>" ++
  "<title>Offline - Book Shelf Explorer</title>" ++
  "<meta name=\"viewport\" content=\"width=device-width,initial-scale=1\"/><style>body\x7bfont-family:system-ui,-apple-system,Segoe UI,Roboto,Helvetica,Arial,sans-serif;margin:0;padding:2rem;background:#121212;color:#f5f5f5;display:flex;flex-direction:column;align-items:center;justify-content:center;text-align:center\x7dh1\x7bfont-size:1.8rem;margin-bottom:0.5rem\x7dp\x7bmax-width:600px;line-height:1.5\x7da\x7bcolor:#4dabf7;text-decoration:none;font-weight:600;margin-top:1rem;display:inline-block\x7da:hover\x7btext-decoration:underline\x7d</style></head><body><h1>You\x27re Offline</h1><p>The requested page isn\x27t cached yet. Core features like your personal library will still load once this page is revisited online. Uploaded files remain stored locally.</p><a href=\"/index.html\">Return to Home</a></body></html>"

/-- The function `offlineFallbackResponse`: status 200 with the inline
document and the content type given in the source. -/
def offlineFallbackResponse : Response :=
  { status := 200, statusText := "",
    headers := [("content-type", "text/html; charset=utf-8")], body := offlineHtml }

/-- The response the Gemini branch builds when the fetch fails: status 503
with the text body "Gemini API unreachable"; a string body brings its
content type. -/
def geminiUnreachable : Response :=
  { status := 503, statusText := "",
    headers := [("content-type", "text/plain;charset=UTF-8")], body := "Gemini API unreachable" }

/-! ## The environment of one handled event -/

/-- How the promise `evt.preloadResponse` settles. -/
inductive Preload where
  | absent
  | response (r : Response)
  | rejected
deriving DecidableEq, Repr

/-- What the platform decides while one event is handled. -/
structure Env where
  /-- The worker location, `location.origin`. -/
  origin : String
  /-- How `fetch(req)` settles when nobody aborts it: a response, or `none`
  when it rejects. -/
  net : Option Response
  /-- Milliseconds until `fetch(req)` settles. -/
  latency : Nat
  /-- The navigation-preload promise. -/
  preload : Preload
  /-- The reading of `Date.now()` where the age of a cached entry is computed. -/
  now : Nat
  /-- The reading of `Date.now()` where a fetched response is stamped. -/
  stampNow : Nat
  /-- Whether a `cache.put` issued while handling the event succeeds. -/
  putOk : Bool

/-- How the promise handed to `respondWith` (or returned by an executor)
settles. -/
inductive Outcome where
  | response (r : Response)
  | null
  | undefined
  | rejected
deriving DecidableEq, Repr

/-- The platform calls an executor issues. -/
inductive Effect where
  | fetch (url : String)
  | cachesOpen (name : String)
  | cacheMatch (name url : String)
  | cachesMatch (url : String)
  | cachePut (name url : String)
  | cacheDelete (name url : String)
  | trim (name : String) (maxEntries : Nat)
deriving DecidableEq, Repr

/-- What an executor leaves behind: how its promise settles, the store and
the calls it issued, in order. -/
structure Result where
  outcome : Outcome
  caches : CacheStorage
  log : List Effect

/-- Whether a logged call reads or writes the cache store. -/
def Effect.touchesCache : Effect → Bool
  | .fetch _ => false
  | _ => true

/-- Whether a logged call is a network fetch. -/
def Effect.isFetch : Effect → Bool
  | .fetch _ => true
  | _ => false

/-- Whether a logged call writes the cache store. -/
def Effect.isWrite : Effect → Bool
  | .cachePut _ _ => true
  | .cacheDelete _ _ => true
  | .trim _ _ => true
  | _ => false

/-! ## The eviction trimmer -/

/-- The function `trimCache(cacheName, maxEntries)`: when the namespace has
more keys than `maxEntries`, the keys `keys.slice(0, keys.length - maxEntries)`
are deleted. -/
def trimCache (s : CacheStorage) (cacheName : String) (maxEntries : Nat) : CacheStorage :=
  let s1 := s.open cacheName
  let keys := (s1.cacheOf cacheName).keys
  if keys.length ≤ maxEntries then s1
  else
    let toDelete := keys.take (keys.length - maxEntries)
    toDelete.foldl (fun acc k => acc.modify cacheName (fun c => Cache.delete c k)) s1

/-! ## The strategy executors -/

/-- The function `networkFirst(req, cacheName, timeoutMs)`.  The fetch is
aborted, and so rejects, unless it settles before the timer fires. -/
def networkFirst (env : Env) (s : CacheStorage) (req : Request) (cacheName : String)
    (timeoutMs : Nat) : Result :=
  let s1 := s.open cacheName
  let settled : Option Response := if env.latency < timeoutMs then env.net else none
  match settled with
  | some resp =>
    if resp.ok then
      { outcome := .response resp
        caches := s1.put env.putOk cacheName req.url resp
        log := [.cachesOpen cacheName, .fetch req.url, .cachePut cacheName req.url] }
    else
      { outcome := .response resp, caches := s1
        log := [.cachesOpen cacheName, .fetch req.url] }
  | none =>
    match (s1.cacheOf cacheName).matchKey req.url with
    | some cached =>
      { outcome := .response cached, caches := s1
        log := [.cachesOpen cacheName, .fetch req.url, .cacheMatch cacheName req.url] }
    | none =>
      { outcome := .rejected, caches := s1
        log := [.cachesOpen cacheName, .fetch req.url, .cacheMatch cacheName req.url] }

/-- The function `staleWhileRevalidate(req, cacheName)`.  The fetch promise
is an object, hence truthy: the result is the cached copy or else what the
fetch promise resolves with (`null` after a failed fetch). -/
def staleWhileRevalidate (env : Env) (s : CacheStorage) (req : Request) (cacheName : String) :
    Result :=
  let s1 := s.open cacheName
  let cached := (s1.cacheOf cacheName).matchKey req.url
  let opened : List Effect :=
    [.cachesOpen cacheName, .cacheMatch cacheName req.url, .fetch req.url]
  let fetched : Result :=
    match env.net with
    | some resp =>
      if resp.ok then
        { outcome := .response resp
          caches := s1.put env.putOk cacheName req.url resp
          log := opened ++ [.cachePut cacheName req.url] }
      else { outcome := .response resp, caches := s1, log := opened }
    | none => { outcome := .null, caches := s1, log := opened }
  match cached with
  | some c => { fetched with outcome := .response c }
  | none => fetched

/-- The function `fetchAndStoreImage(req, cache)`; `cache` is the handle of
the namespace `cacheName`.  Building the stamped response throws for a
null body status, which lands in the catch block like a failed fetch. -/
def fetchAndStoreImage (env : Env) (s : CacheStorage) (req : Request) (cacheName : String) :
    Result :=
  let caught : Result :=
    match (s.cacheOf cacheName).matchKey req.url with
    | some fallback =>
      { outcome := .response fallback, caches := s
        log := [.fetch req.url, .cacheMatch cacheName req.url] }
    | none =>
      { outcome := .response Response.error, caches := s
        log := [.fetch req.url, .cacheMatch cacheName req.url] }
  match env.net with
  | some resp =>
    if resp.ok then
      let headers := Headers.set resp.headers "sw-cached-at" (toString env.stampNow)
      match newResponse resp.body resp.status resp.statusText headers with
      | some stored =>
        { outcome := .response stored
          caches := s.put env.putOk cacheName req.url stored
          log := [.fetch req.url, .cachePut cacheName req.url] }
      | none => caught
    else { outcome := .response resp, caches := s, log := [.fetch req.url] }
  | none => caught

/-- The function `imageCache(req)`. -/
def imageCache (env : Env) (s : CacheStorage) (req : Request) : Result :=
  let s1 := s.open CACHE_NAMES.images
  let opened : List Effect :=
    [.cachesOpen CACHE_NAMES.images, .cacheMatch CACHE_NAMES.images req.url]
  match (s1.cacheOf CACHE_NAMES.images).matchKey req.url with
  | some cached =>
    let expired : Bool :=
      match Headers.get cached.headers "sw-cached-at" with
      | none => false
      | some dateHeader =>
        if dateHeader == "" then false
        else
          match parseInt dateHeader with
          | none => false
          | some stamp => decide ((env.now : Int) - stamp > (MAX_IMAGE_AGE : Int))
    if expired then
      let s2 := s1.modify CACHE_NAMES.images (fun c => Cache.delete c req.url)
      let r := fetchAndStoreImage env s2 req CACHE_NAMES.images
      { r with log := opened ++ [.cacheDelete CACHE_NAMES.images req.url] ++ r.log }
    else { outcome := .response cached, caches := s1, log := opened }
  | none =>
    let r := fetchAndStoreImage env s1 req CACHE_NAMES.images
    { outcome := r.outcome
      caches := trimCache r.caches CACHE_NAMES.images MAX_IMAGE_ENTRIES
      log := opened ++ r.log ++ [.trim CACHE_NAMES.images MAX_IMAGE_ENTRIES] }

/-- The function `apiNetworkFirstWithTTL(req)`.  A cached copy is served
after a failure only when its stamp is a nonzero number and its age is
below `MAX_API_AGE`. -/
def apiNetworkFirstWithTTL (env : Env) (s : CacheStorage) (req : Request) : Result :=
  let s1 := s.open CACHE_NAMES.api
  let tried : List Effect := [.cachesOpen CACHE_NAMES.api, .fetch req.url]
  let caught : Result :=
    match (s1.cacheOf CACHE_NAMES.api).matchKey req.url with
    | none =>
      { outcome := .rejected, caches := s1
        log := tried ++ [.cacheMatch CACHE_NAMES.api req.url] }
    | some cached =>
      let text : String :=
        match Headers.get cached.headers "sw-fetched-at" with
        | none => "0"
        | some v => if v == "" then "0" else v
      let fresh : Bool :=
        match parseInt text with
        | none => false
        | some ts => decide (ts ≠ 0) && decide ((env.now : Int) - ts < (MAX_API_AGE : Int))
      { outcome := if fresh then .response cached else .rejected
        caches := s1
        log := tried ++ [.cacheMatch CACHE_NAMES.api req.url] }
  match env.net with
  | some resp =>
    if resp.ok then
      let headers := Headers.set resp.headers "sw-fetched-at" (toString env.stampNow)
      match newResponse resp.body resp.status resp.statusText headers with
      | some stored =>
        { outcome := .response stored
          caches := trimCache (s1.put env.putOk CACHE_NAMES.api req.url stored)
            CACHE_NAMES.api MAX_API_ENTRIES
          log := tried ++ [.cachePut CACHE_NAMES.api req.url,
            .trim CACHE_NAMES.api MAX_API_ENTRIES] }
      | none => caught
    else { outcome := .response resp, caches := s1, log := tried }
  | none => caught

/-! ## Classification of requests -/

/-- Whether `s` ends with `pat`: the test of a regular expression that is
the literal text `pat` anchored at the end. -/
def endsWith (s pat : String) : Bool := pat.toList.isSuffixOf s.toList

/-- Whether `pat` occurs in `s`: the test of an unanchored literal
regular expression. -/
def containsText (s pat : String) : Bool :=
  s.toList.tails.any (fun t => pat.toList.isPrefixOf t)

/-- The test `/\/assets\/partials\/(header|footer)\.html$/`. -/
def isPartialPath (pathname : String) : Bool :=
  endsWith pathname "/assets/partials/header.html" ||
  endsWith pathname "/assets/partials/footer.html"

/-- The test `/\.(css|js)$/`. -/
def isStylePath (pathname : String) : Bool :=
  endsWith pathname ".css" || endsWith pathname ".js"

/-- The extensions of the image test. -/
def imageExtensions : List String := ["png", "jpg", "jpeg", "gif", "webp", "svg", "ico"]

/-- The test `/\.(png|jpg|jpeg|gif|webp|svg|ico)$/i`: the letters are
compared without regard to (ASCII) case. -/
def isImagePath (pathname : String) : Bool :=
  imageExtensions.any
    (fun ext => ('.' :: ext.toList).isSuffixOf (pathname.toList.map Char.toLower))

/-- The test `/generativelanguage\.googleapis\.com/`. -/
def isGeminiHost (hostname : String) : Bool :=
  containsText hostname "generativelanguage.googleapis.com"

/-- The test `/googleapis\.com/`. -/
def isGoogleApisHost (hostname : String) : Bool :=
  containsText hostname "googleapis.com"

/-- The branches of the fetch handler. -/
inductive Strategy where
  | Navigation
  | Partial
  | StaticAsset
  | Image
  | SensitiveBypass
  | ExternalAPI
  | Default
deriving DecidableEq, Repr

/-- The chain of tests of the fetch handler, for a GET request: the branch
that handles the request. -/
def classify (origin : String) (req : Request) : Strategy :=
  if req.mode == "navigate" then .Navigation
  else if req.origin == origin && isPartialPath req.pathname then .Partial
  else if req.origin == origin && isStylePath req.pathname then .StaticAsset
  else if isImagePath req.pathname then .Image
  else if isGeminiHost req.hostname then .SensitiveBypass
  else if isGoogleApisHost req.hostname then .ExternalAPI
  else .Default

/-! ## The fetch handler -/

/-- The catch block of the navigation branch: any cached copy, or else the
offline document. -/
def navigationCaught (s : CacheStorage) (req : Request) (log : List Effect) : Result :=
  match s.matchAny req.url with
  | some cached =>
    { outcome := .response cached, caches := s, log := log ++ [.cachesMatch req.url] }
  | none =>
    { outcome := .response offlineFallbackResponse, caches := s
      log := log ++ [.cachesMatch req.url] }

/-- The navigation branch of the fetch handler. -/
def handleNavigation (env : Env) (s : CacheStorage) (req : Request) : Result :=
  match env.preload with
  | .rejected => navigationCaught s req []
  | .response preload =>
    { outcome := .response preload
      caches := (s.open CACHE_NAMES.pages).put env.putOk CACHE_NAMES.pages req.url preload
      log := [.cachesOpen CACHE_NAMES.pages, .cachePut CACHE_NAMES.pages req.url] }
  | .absent =>
    let r := networkFirst env s req CACHE_NAMES.pages 5000
    match r.outcome with
    | .rejected => navigationCaught r.caches req r.log
    | _ => r

/-- The branch of the header and footer partials.  In the catch block
`caches.match(req)` is a promise, hence truthy, and is what is returned: it
resolves with a cached copy or with undefined. -/
def handlePartial (env : Env) (s : CacheStorage) (req : Request) : Result :=
  let r := networkFirst env s req CACHE_NAMES.assets 4000
  match r.outcome with
  | .rejected =>
    match r.caches.matchAny req.url with
    | some cached =>
      { outcome := .response cached, caches := r.caches
        log := r.log ++ [.cachesMatch req.url] }
    | none =>
      { outcome := .undefined, caches := r.caches, log := r.log ++ [.cachesMatch req.url] }
  | _ => r

/-- The Gemini branch: the network, and a 503 response when it fails. -/
def handleGemini (env : Env) (s : CacheStorage) (req : Request) : Result :=
  match env.net with
  | some resp => { outcome := .response resp, caches := s, log := [.fetch req.url] }
  | none => { outcome := .response geminiUnreachable, caches := s, log := [.fetch req.url] }

/-- The default branch: any cached copy, else the network, else undefined. -/
def handleDefault (env : Env) (s : CacheStorage) (req : Request) : Result :=
  match s.matchAny req.url with
  | some c => { outcome := .response c, caches := s, log := [.cachesMatch req.url] }
  | none =>
    match env.net with
    | some resp =>
      { outcome := .response resp, caches := s, log := [.cachesMatch req.url, .fetch req.url] }
    | none =>
      { outcome := .undefined, caches := s, log := [.cachesMatch req.url, .fetch req.url] }

/-- The body of each branch of the fetch handler. -/
def runStrategy (strategy : Strategy) (env : Env) (s : CacheStorage) (req : Request) : Result :=
  match strategy with
  | .Navigation => handleNavigation env s req
  | .Partial => handlePartial env s req
  | .StaticAsset => staleWhileRevalidate env s req CACHE_NAMES.assets
  | .Image => imageCache env s req
  | .SensitiveBypass => handleGemini env s req
  | .ExternalAPI => apiNetworkFirstWithTTL env s req
  | .Default => handleDefault env s req

/-- What the fetch handler did with a request it answers: the branch taken
and what the promise given to `respondWith` leaves behind. -/
structure Handled where
  strategy : Strategy
  result : Result

/-- The fetch event listener.  `none`: the handler returns without calling
`respondWith` (a request that is not a GET). -/
def onFetch (env : Env) (s : CacheStorage) (req : Request) : Option Handled :=
  if req.method != "GET" then none
  else
    some
      { strategy := classify env.origin req
        result := runStrategy (classify env.origin req) env s req }

/-! ## The classification rules in the words of the specification -/

/-- The text `s` ends with `pat`. -/
def EndsWithText (s pat : String) : Prop := ∃ pre : List Char, s.toList = pre ++ pat.toList

/-- The text `pat` occurs somewhere in `s`. -/
def OccursIn (pat s : String) : Prop := ∃ a b : List Char, s.toList = a ++ pat.toList ++ b

/-- The path ends in a dot and one of the image extensions, letters compared
without regard to case. -/
def HasImageExtension (pathname : String) : Prop :=
  ∃ ext ∈ imageExtensions, ∃ pre suf : List Char,
    pathname.toList = pre ++ suf ∧ suf.map Char.toLower = '.' :: ext.toList

/-- The rules in the order of the specification, each with the strategy it
selects; the last one is the default fallback. -/
def rules (origin : String) (req : Request) : List (Prop × Strategy) :=
  [ (req.mode = "navigate", .Navigation),
    (req.origin = origin ∧
      (EndsWithText req.pathname "/assets/partials/header.html" ∨
        EndsWithText req.pathname "/assets/partials/footer.html"), .Partial),
    (req.origin = origin ∧
      (EndsWithText req.pathname ".css" ∨ EndsWithText req.pathname ".js"), .StaticAsset),
    (HasImageExtension req.pathname, .Image),
    (OccursIn "generativelanguage.googleapis.com" req.hostname, .SensitiveBypass),
    (OccursIn "googleapis.com" req.hostname, .ExternalAPI),
    (True, .Default) ]

/-- First match wins: `st` is the strategy of the first rule of the list
whose condition holds. -/
def FirstMatch : List (Prop × Strategy) → Strategy → Prop
  | [], _ => False
  | rule :: rest, st => (rule.1 ∧ st = rule.2) ∨ (¬ rule.1 ∧ FirstMatch rest st)

/-! ## The lifecycle: install, activate, control messages -/

/-- The list `PRECACHE_URLS`. -/
def PRECACHE_URLS : List String :=
  [ "/", "/index.html", "/pages/admin.html", "/pages/reader.html", "/pages/my_library.html",
    "/pages/login_register.html", "/book.css", "/assets/css/components.css",
    "/assets/css/main.css", "/assets/css/responsive.css", "/assets/css/google-books.css",
    "/assets/js/main.js", "/assets/js/login.js", "/assets/js/google-books.js",
    "/assets/js/search.js", "/assets/js/library.js", "/assets/js/layout.js",
    "/assets/js/geminiClient.js", "/assets/js/reader.js", "/manifest.json",
    "/assets/icons/icon-192.png", "/assets/icons/icon-512.png" ]

/-- The table `CACHE_NAMES` as the source builds it from a version tag:
`CACHE_NAMES` is this table at `SW_VERSION`. -/
def cacheNamesFor (version : String) : CacheNames :=
  { shell := "bse-shell-" ++ version
    pages := "bse-pages-" ++ version
    assets := "bse-assets-" ++ version
    images := "bse-img"
    api := "bse-api-runtime" }

/-- The list `Object.values(CACHE_NAMES)`. -/
def CacheNames.values (names : CacheNames) : List String :=
  [names.shell, names.pages, names.assets, names.images, names.api]

/-- The call `k.startsWith(pre)`. -/
def startsWith (k pre : String) : Bool := pre.toList.isPrefixOf k.toList

/-- The sweep that the activate listener and the CLEAR_CACHES message both
run: every existing namespace whose name starts with `bse-` and is not a
value of the table is deleted. -/
def deleteStale (names : CacheNames) (s : CacheStorage) : CacheStorage :=
  let keys := s.keys
  let valid := names.values
  (keys.filter (fun k => startsWith k "bse-" && !valid.contains k)).foldl
    (fun acc k => acc.delete k) s

/-- What the platform decides during an install: how the fetch of each
absolute URL settles and whether the store accepts the writes. -/
structure InstallEnv where
  origin : String
  fetchOf : String → Option Response
  putOk : Bool

/-- The field values of a comma-separated header value. -/
def splitOnComma (cs : List Char) : List (List Char) :=
  cs.foldr
    (fun c acc =>
      if c == ',' then [] :: acc
      else
        match acc with
        | h :: t => (c :: h) :: t
        | [] => [[c]])
    [[]]

/-- A field value without the spaces and tabs around it. -/
def trimOws (cs : List Char) : List Char :=
  ((cs.dropWhile (fun c => c == ' ' || c == '\t')).reverse.dropWhile
    (fun c => c == ' ' || c == '\t')).reverse

/-- Whether a response has a `Vary` header one of whose field values is `*`. -/
def hasVaryStar (r : Response) : Bool :=
  match Headers.get r.headers "vary" with
  | none => false
  | some v => (splitOnComma v.toList).any (fun field => trimOws field == ['*'])

/-- Whether `cache.addAll` accepts what the fetch of `url` gives: a response
with an ok status other than 206 and without `Vary: *`. -/
def precacheable (env : InstallEnv) (url : String) : Bool :=
  match env.fetchOf url with
  | some r => r.ok && !(r.status == 206) && !hasVaryStar r
  | none => false

/-- One write of `cache.addAll`: what the fetch of `url` gave is stored
under `url` in the namespace `name`. -/
def storeFetched (env : InstallEnv) (name : String) (acc : CacheStorage) (url : String) :
    CacheStorage :=
  match env.fetchOf url with
  | some r => acc.put true name url r
  | none => acc

/-- The call `cache.addAll(urls)` on the namespace `name`, the URLs resolved
against the worker's origin: every URL is fetched; when one fetch fails or
is not acceptable, or the store refuses the writes, the call rejects
(`none`) and nothing is written; otherwise every response is stored. -/
def addAll (env : InstallEnv) (s : CacheStorage) (name : String) (urls : List String) :
    Option CacheStorage :=
  let keys := urls.map (fun u => env.origin ++ u)
  if keys.all (fun k => precacheable env k) && env.putOk then
    some (keys.foldl (fun acc k => storeFetched env name acc k) s)
  else none

/-- What an install leaves behind: whether the promise given to
`waitUntil` is fulfilled, whether `skipWaiting` was called, and the store. -/
structure InstallResult where
  fulfilled : Bool
  skipWaiting : Bool
  caches : CacheStorage

/-- The install listener for a worker whose table of names is `names`. -/
def installWith (names : CacheNames) (env : InstallEnv) (s : CacheStorage) : InstallResult :=
  let s1 := s.open names.shell
  match addAll env s1 names.shell PRECACHE_URLS with
  | some s2 => { fulfilled := true, skipWaiting := true, caches := s2 }
  | none => { fulfilled := false, skipWaiting := false, caches := s1 }

/-- The install listener. -/
def onInstall (env : InstallEnv) (s : CacheStorage) : InstallResult :=
  installWith CACHE_NAMES env s

/-- What an activation leaves behind. -/
structure ActivateResult where
  preloadEnabled : Bool
  claimed : Bool
  caches : CacheStorage

/-- The activate listener for a worker whose table of names is `names`;
`preload` says whether navigation preload exists and could be enabled. -/
def activateWith (names : CacheNames) (preload : Bool) (s : CacheStorage) : ActivateResult :=
  { preloadEnabled := preload, claimed := true, caches := deleteStale names s }

/-- The activate listener. -/
def onActivate (preload : Bool) (s : CacheStorage) : ActivateResult :=
  activateWith CACHE_NAMES preload s

/-- The payload `evt.data` of a control message: a string, an object with
its `type` property (when it has one), or anything else. -/
inductive MessageData where
  | text (s : String)
  | object (type : Option String)
  | other
deriving DecidableEq, Repr

/-- The messages the worker posts back. -/
inductive Reply where
  | pong (version : String)
  | swVersion (version : String)
  | clearDone
deriving DecidableEq, Repr

/-- What handling a message leaves behind: the message posted to
`evt.source`, whether `skipWaiting` was called, and the store. -/
structure MessageResult where
  reply : Option Reply
  skipWaiting : Bool
  caches : CacheStorage

/-- The message listener; `hasSource` says whether `evt.source` is set. -/
def onMessage (hasSource : Bool) (data : MessageData) (s : CacheStorage) : MessageResult :=
  match data with
  | .text "SKIP_WAITING" => { reply := none, skipWaiting := true, caches := s }
  | .text "PING" =>
    { reply := if hasSource then some (.pong SW_VERSION) else none
      skipWaiting := false, caches := s }
  | .text "GET_VERSION" =>
    { reply := if hasSource then some (.swVersion SW_VERSION) else none
      skipWaiting := false, caches := s }
  | .object (some "CLEAR_CACHES") =>
    { reply := if hasSource then some .clearDone else none
      skipWaiting := false, caches := deleteStale CACHE_NAMES s }
  | _ => { reply := none, skipWaiting := false, caches := s }

/-- The namespaces an executor wrote entries to: the targets of the
`cache.put` calls of its log, in order. -/
def putTargets : List Effect → List String
  | [] => []
  | .cachePut name _ :: rest => name :: putTargets rest
  | _ :: rest => putTargets rest

/-! ## Sample data -/

/-- The origin the worker is served from in the samples. -/
def sampleOrigin : String := "https://books.example"

/-- A sample environment: the network is down. -/
def offlineEnv : Env :=
  { origin := sampleOrigin, net := none, latency := 0, preload := .absent,
    now := 1730000000000, stampNow := 1730000000000, putOk := true }

/-- A sample response with status 200. -/
def pageResponse (body : String) : Response :=
  { status := 200, statusText := "OK", headers := [("content-type", "text/html")], body := body }

/-- A sample environment: the network answers with `resp` at once. -/
def onlineEnv (resp : Response) : Env :=
  { origin := sampleOrigin, net := some resp, latency := 10, preload := .absent,
    now := 1730000000000, stampNow := 1730000000000, putOk := true }

/-- A sample GET request to the worker's own origin. -/
def sameOriginGet (mode pathname : String) : Request :=
  { method := "GET", mode := mode, url := sampleOrigin ++ pathname, origin := sampleOrigin,
    pathname := pathname, hostname := "books.example" }

/-- A sample GET request to another host. -/
def crossOriginGet (hostname pathname : String) : Request :=
  { method := "GET", mode := "cors", url := "https://" ++ hostname ++ pathname,
    origin := "https://" ++ hostname, pathname := pathname, hostname := hostname }

/-- A sample store: the shell namespace holds the home page. -/
def shellStore : CacheStorage :=
  [("bse-shell-v7", [(sampleOrigin ++ "/index.html", pageResponse "home")])]

/-- A sample image entry stamped at clock value `stamp`. -/
def stampedImage (stamp : Nat) : Response :=
  { status := 200, statusText := "OK"
    headers := [("content-type", "image/png"), ("sw-cached-at", toString stamp)]
    body := "png-bytes" }

/-- A sample API entry stamped at clock value `stamp`. -/
def stampedApi (stamp : Nat) : Response :=
  { status := 200, statusText := "OK"
    headers := [("content-type", "application/json"), ("sw-fetched-at", toString stamp)]
    body := "volumes" }

/-- A sample image request to another host. -/
def coverRequest : Request := crossOriginGet "covers.example" "/cover.png"

/-- A sample request to the Google Books API. -/
def booksRequest : Request := crossOriginGet "www.googleapis.com" "/books/v1/volumes"

/-- A sample request to the Gemini API. -/
def geminiRequest : Request :=
  crossOriginGet "generativelanguage.googleapis.com" "/v1beta/models"

/-- A sample store whose images namespace holds the cover stamped at `stamp`. -/
def imageStore (stamp : Nat) : CacheStorage :=
  [("bse-img", [(coverRequest.url, stampedImage stamp)])]

/-- A sample store whose API namespace holds the volumes stamped at `stamp`. -/
def apiStore (stamp : Nat) : CacheStorage :=
  [("bse-api-runtime", [(booksRequest.url, stampedApi stamp)])]

/-- A sample environment: the network is down and the clock reads `now`. -/
def offlineAt (now : Nat) : Env :=
  { origin := sampleOrigin, net := none, latency := 0, preload := .absent,
    now := now, stampNow := now, putOk := true }

/-- A sample script request to the worker's own origin. -/
def scriptRequest : Request := sameOriginGet "no-cors" "/assets/js/reader.js"

/-- A sample store whose assets namespace holds a copy of the script. -/
def assetStore : CacheStorage :=
  [("bse-assets-v7", [(scriptRequest.url, pageResponse "old script")])]

/-- A sample response with the ok status 204 (no content). -/
def noContent : Response :=
  { status := 204, statusText := "No Content", headers := [], body := "" }

/-- A sample GET request to the Gemini host whose path ends like an image. -/
def geminiImageRequest : Request :=
  crossOriginGet "generativelanguage.googleapis.com" "/v1beta/files/chart.png"

/-- Thirty-one days, in milliseconds. -/
def thirtyOneDays : Nat := 1000 * 60 * 60 * 24 * 31

/-- The bounds of the two capped namespaces: at most `MAX_IMAGE_ENTRIES`
images and at most `MAX_API_ENTRIES` API responses. -/
def withinCaps (s : CacheStorage) : Prop :=
  (s.cacheOf CACHE_NAMES.images).length ≤ MAX_IMAGE_ENTRIES ∧
    (s.cacheOf CACHE_NAMES.api).length ≤ MAX_API_ENTRIES

/-- A sample store with namespaces of an older version, the persistent
ones and one that is not the worker's. -/
def mixedStore : CacheStorage :=
  [ ("bse-shell-v6", [(sampleOrigin ++ "/index.html", pageResponse "old home")]),
    ("bse-img", [(coverRequest.url, stampedImage 1730000000000)]),
    ("workbox-precache", [(sampleOrigin ++ "/x", pageResponse "x")]),
    ("bse-pages-v7", [(sampleOrigin ++ "/index.html", pageResponse "home")]) ]

/-- A sample install environment: every fetch gives a page. -/
def allReachable : InstallEnv :=
  { origin := sampleOrigin, fetchOf := fun _ => some (pageResponse "precached"), putOk := true }

/-- The store once a fetch event has been handled: what the handler leaves
behind, and the store as it was when the handler does not answer. -/
def storeAfterFetch (env : Env) (s : CacheStorage) (req : Request) : CacheStorage :=
  match onFetch env s req with
  | some h => h.result.caches
  | none => s

/-- A sample response with the ok status 206 (partial content), which the
platform refuses to store. -/
def partialContent : Response :=
  { status := 206, statusText := "Partial Content"
    headers := [("content-type", "text/html"), ("content-range", "bytes 0-99/1000")]
    body := "first bytes" }

/-- A sample environment: the network answers with `resp` at once and the
store refuses the write. -/
def refusingEnv (resp : Response) : Env :=
  { onlineEnv resp with putOk := false }

/-- A sample environment: the preload promise gives `resp` and the store
refuses the write. -/
def preloadRefusingEnv (resp : Response) : Env :=
  { origin := sampleOrigin, net := none, latency := 0, preload := .response resp,
    now := 1730000000000, stampNow := 1730000000000, putOk := false }

/-- A sample install environment: every fetch gives a page and the store
refuses the writes (its quota is exhausted). -/
def quotaExhausted : InstallEnv :=
  { origin := sampleOrigin, fetchOf := fun _ => some (pageResponse "precached"), putOk := false }

/-- A sample response that `cache.addAll` refuses: ok, with `Vary: *`. -/
def variesOnAll : Response :=
  { status := 200, statusText := "OK"
    headers := [("content-type", "text/html"), ("vary", "Accept-Encoding, *")], body := "page" }

/-! ## A sequence of writes, each followed by a trim -/

/-- One write of the entry `e` to the namespace `name` (the write succeeds),
followed by `trimCache(name, K)`. -/
def writeAndTrim (s : CacheStorage) (name : String) (K : Nat) (e : String × Response) :
    CacheStorage :=
  trimCache ((s.open name).put true name e.1 e.2) name K

/-- The writes of `entries`, in order, each followed by a trim. -/
def writeAllAndTrim (s : CacheStorage) (name : String) (K : Nat)
    (entries : List (String × Response)) : CacheStorage :=
  entries.foldl (fun acc e => writeAndTrim acc name K e) s

/-- Three sample entries with distinct keys. -/
def threeEntries : List (String × Response) :=
  [("/a.png", pageResponse "a"), ("/b.png", pageResponse "b"), ("/c.png", pageResponse "c")]

/-! ## A write that races with a trim -/

/-- The keys `trimCache(cacheName, maxEntries)` decides to delete from the
key list it reads at its start (`toDelete`; none when the namespace is
within the bound). -/
def trimPlan (s : CacheStorage) (cacheName : String) (maxEntries : Nat) : List String :=
  let keys := ((s.open cacheName).cacheOf cacheName).keys
  if keys.length ≤ maxEntries then [] else keys.take (keys.length - maxEntries)

/-- The calls `cache.delete(k)` of a trim, for the keys `ks`, in order. -/
def applyDeletes (s : CacheStorage) (cacheName : String) (ks : List String) : CacheStorage :=
  ks.foldl (fun acc k => acc.modify cacheName (fun c => Cache.delete c k)) s

/-- A run of `trimCache(cacheName, maxEntries)` during which another handler
writes `resp` under `url` to the same namespace: the trim reads the key
list, performs its first `i` deletes, the write lands, and the trim
performs the rest of its deletes. -/
def trimRacingWrite (s : CacheStorage) (cacheName : String) (maxEntries i : Nat)
    (url : String) (resp : Response) : CacheStorage :=
  let plan := trimPlan s cacheName maxEntries
  let s1 := applyDeletes (s.open cacheName) cacheName (plan.take i)
  let s2 := s1.put true cacheName url resp
  applyDeletes s2 cacheName (plan.drop i)

/-- A sample request for the header partial. -/
def headerRequest : Request := sameOriginGet "cors" "/assets/partials/header.html"

/-- A sample navigation request. -/
def homeRequest : Request := sameOriginGet "navigate" "/index.html"

/-- A sample request that is not a GET. -/
def postRequest : Request := { sameOriginGet "cors" "/api/save" with method := "POST" }

/-- A sample environment: the preload promise gives `resp`, the network is down. -/
def preloadEnv (resp : Response) : Env :=
  { origin := sampleOrigin, net := none, latency := 0, preload := .response resp,
    now := 1730000000000, stampNow := 1730000000000, putOk := true }

/-- A sample GET request that no rule but the default one takes. -/
def fontRequest : Request := crossOriginGet "fonts.example" "/inter.woff2"

/-- A sample image store with three entries, oldest first. -/
def threeImages : CacheStorage := [("bse-img", threeEntries)]

/-! ## The store: basic facts -/

theorem cacheOf_open_self (s : CacheStorage) (name : String) :
    (s.open name).cacheOf name = s.cacheOf name := by
  unfold CacheStorage.open CacheStorage.cacheOf
  by_cases h : s.any (fun e => e.1 == name) = true
  · simp [h]
  · have hnone : s.find? (fun e => e.1 == name) = none := by
      rw [List.find?_eq_none]
      intro x hx hxn
      exact h (List.any_eq_true.mpr ⟨x, hx, hxn⟩)
    simp [h, List.find?_append, hnone]

theorem open_eq_self_of_mem (s : CacheStorage) (name : String)
    (h : name ∈ s.keys) : s.open name = s := by
  unfold CacheStorage.open
  have : s.any (fun e => e.1 == name) = true := by
    simp only [CacheStorage.keys, List.mem_map] at h
    obtain ⟨e, he, hen⟩ := h
    exact List.any_eq_true.mpr ⟨e, he, by simp [hen]⟩
  simp [this]

theorem mem_keys_open (s : CacheStorage) (name : String) : name ∈ (s.open name).keys := by
  unfold CacheStorage.open
  by_cases h : s.any (fun e => e.1 == name) = true
  · simp only [h, if_true]
    obtain ⟨e, he, hen⟩ := List.any_eq_true.mp h
    simp only [CacheStorage.keys, List.mem_map]
    exact ⟨e, he, by simpa using hen⟩
  · simp [h, CacheStorage.keys]

theorem open_open (s : CacheStorage) (name : String) :
    (s.open name).open name = s.open name :=
  open_eq_self_of_mem _ _ (mem_keys_open s name)

theorem keys_modify (s : CacheStorage) (name : String) (f : Cache → Cache) :
    (s.modify name f).keys = s.keys := by
  unfold CacheStorage.modify CacheStorage.keys
  rw [List.map_map]
  apply List.map_congr_left
  intro e _
  by_cases h : e.1 = name <;> simp [h]

theorem cacheOf_modify_self (s : CacheStorage) (name : String) (f : Cache → Cache)
    (h : name ∈ s.keys) : (s.modify name f).cacheOf name = f (s.cacheOf name) := by
  induction s with
  | nil => simp [CacheStorage.keys] at h
  | cons e t ih =>
    by_cases he : e.1 = name
    · simp [CacheStorage.modify, CacheStorage.cacheOf, List.find?_cons, he]
    · have ht : name ∈ CacheStorage.keys t := by
        simp only [CacheStorage.keys, List.map_cons, List.mem_cons] at h
        rcases h with h | h
        · exact absurd h.symm he
        · exact h
      have hb : (e.1 == name) = false := by simp [he]
      have := ih ht
      unfold CacheStorage.modify CacheStorage.cacheOf at this ⊢
      rw [List.map_cons, List.find?_cons, List.find?_cons]
      simp only [hb, Bool.false_eq_true, if_false]
      exact this

theorem modify_modify (s : CacheStorage) (name : String) (f g : Cache → Cache) :
    (s.modify name f).modify name g = s.modify name (fun c => g (f c)) := by
  unfold CacheStorage.modify
  rw [List.map_map]
  apply List.map_congr_left
  intro e _
  by_cases h : e.1 = name <;> simp [h]

theorem mem_keys_of_matchKey (s : CacheStorage) (name url : String) (r : Response)
    (h : (s.cacheOf name).matchKey url = some r) : name ∈ s.keys := by
  unfold CacheStorage.cacheOf at h
  cases hf : s.find? (fun e => e.1 == name) with
  | none => simp [hf, Cache.matchKey] at h
  | some e =>
    have hmem := List.mem_of_find?_eq_some hf
    have hname := List.find?_some hf
    simp only [CacheStorage.keys, List.mem_map]
    exact ⟨e, hmem, by simpa using hname⟩

/-! ## The trimmer: what it deletes -/

theorem modify_self (s : CacheStorage) (name : String) : s.modify name (fun c => c) = s := by
  unfold CacheStorage.modify
  conv_rhs => rw [← List.map_id s]
  apply List.map_congr_left
  intro e _
  obtain ⟨n, c⟩ := e
  by_cases h : n = name <;> simp [h]

theorem cacheOf_modify_other (s : CacheStorage) (name other : String) (f : Cache → Cache)
    (h : other ≠ name) : (s.modify name f).cacheOf other = s.cacheOf other := by
  induction s with
  | nil => rfl
  | cons e t ih =>
    unfold CacheStorage.modify CacheStorage.cacheOf at ih ⊢
    rw [List.map_cons, List.find?_cons, List.find?_cons]
    by_cases he : e.1 = name
    · have hb : (e.1 == name) = true := by simp [he]
      have hb2 : (e.1 == other) = false := by
        simp only [beq_eq_false_iff_ne, ne_eq]
        intro hc; exact h (hc.symm.trans he)
      simp only [hb, if_true, hb2]
      exact ih
    · have hb : (e.1 == name) = false := by simp [he]
      simp only [hb, Bool.false_eq_true, if_false]
      cases hb2 : (e.1 == other)
      · exact ih
      · rfl

theorem foldl_modify_delete (ks : List String) (s : CacheStorage) (name : String) :
    ks.foldl (fun acc k => acc.modify name (fun c => Cache.delete c k)) s =
      s.modify name (fun c => ks.foldl (fun c k => Cache.delete c k) c) := by
  induction ks generalizing s with
  | nil => simp [modify_self]
  | cons k t ih =>
    simp only [List.foldl_cons]
    rw [ih, modify_modify]

theorem foldl_delete_eq_filter (ks : List String) (c : Cache) :
    ks.foldl (fun c k => Cache.delete c k) c = c.filter (fun e => decide (e.1 ∉ ks)) := by
  induction ks generalizing c with
  | nil => simp
  | cons k t ih =>
    simp only [List.foldl_cons]
    rw [ih]
    unfold Cache.delete
    rw [List.filter_filter]
    apply List.filter_congr
    intro e _
    by_cases h1 : e.1 = k <;> by_cases h2 : e.1 ∈ t <;> simp [h1, h2]

theorem filter_take_keys (c : Cache) (m : Nat) (hnd : (Cache.keys c).Nodup) :
    c.filter (fun e => decide (e.1 ∉ (Cache.keys c).take m)) = c.drop m := by
  induction c generalizing m with
  | nil => simp
  | cons e t ih =>
    cases m with
    | zero => simp
    | succ m =>
      simp only [Cache.keys, List.map_cons, List.nodup_cons] at hnd
      obtain ⟨hnot, hnd⟩ := hnd
      simp only [Cache.keys, List.map_cons, List.take_succ_cons, List.drop_succ_cons]
      rw [List.filter_cons]
      simp only [List.mem_cons, true_or, not_true_eq_false, decide_False, Bool.false_eq_true,
        if_false]
      rw [← ih m hnd]
      apply List.filter_congr
      intro x hx
      have hne : x.1 ≠ e.1 := by
        intro hc
        exact hnot (hc ▸ List.mem_map_of_mem (fun e => e.1) hx)
      simp [hne, Cache.keys]

theorem deleteOldest_eq_drop (c : Cache) (m : Nat) (hnd : (Cache.keys c).Nodup) :
    ((Cache.keys c).take m).foldl (fun c k => Cache.delete c k) c = c.drop m := by
  rw [foldl_delete_eq_filter, filter_take_keys c m hnd]

theorem keys_length (c : Cache) : (Cache.keys c).length = c.length := by
  simp [Cache.keys]

theorem keys_trimCache (s : CacheStorage) (name : String) (K : Nat) :
    (trimCache s name K).keys = (s.open name).keys := by
  unfold trimCache
  simp only
  split
  · rfl
  · rw [foldl_modify_delete, keys_modify]

theorem cacheOf_trimCache (s : CacheStorage) (name : String) (K : Nat)
    (hnd : (Cache.keys (s.cacheOf name)).Nodup) :
    (trimCache s name K).cacheOf name =
      (s.cacheOf name).drop ((s.cacheOf name).length - K) := by
  unfold trimCache
  simp only [cacheOf_open_self, keys_length]
  split
  · rename_i hle
    rw [cacheOf_open_self, Nat.sub_eq_zero_of_le hle, List.drop_zero]
  · rw [foldl_modify_delete, cacheOf_modify_self _ _ _ (mem_keys_open s name),
      cacheOf_open_self, deleteOldest_eq_drop _ _ hnd]

theorem cacheOf_trimCache_other (s : CacheStorage) (name other : String) (K : Nat)
    (h : other ≠ name) : (trimCache s name K).cacheOf other = s.cacheOf other := by
  have hopen : (s.open name).cacheOf other = s.cacheOf other := by
    unfold CacheStorage.open
    split
    · rfl
    · unfold CacheStorage.cacheOf
      rw [List.find?_append]
      cases hf : s.find? (fun e => e.1 == other) with
      | some e => simp
      | none =>
        have : (name == other) = false := by
          simp only [beq_eq_false_iff_ne, ne_eq]; exact fun hc => h hc.symm
        simp [List.find?_cons, this]
  unfold trimCache
  simp only
  split
  · exact hopen
  · rw [foldl_modify_delete, cacheOf_modify_other _ _ _ _ h, hopen]

theorem trimCache_of_le (s : CacheStorage) (name : String) (K : Nat)
    (hle : (s.cacheOf name).length ≤ K) : trimCache s name K = s.open name := by
  unfold trimCache
  simp only [cacheOf_open_self, keys_length, hle, if_true]

theorem trimCache_idem (s : CacheStorage) (name : String) (K : Nat)
    (hnd : (Cache.keys (s.cacheOf name)).Nodup) :
    trimCache (trimCache s name K) name K = trimCache s name K := by
  have hlen : ((trimCache s name K).cacheOf name).length ≤ K := by
    rw [cacheOf_trimCache s name K hnd, List.length_drop]
    omega
  rw [trimCache_of_le _ _ _ hlen]
  apply open_eq_self_of_mem
  rw [keys_trimCache]
  exact mem_keys_open s name

/-! ## The timestamp text: writing a clock value and reading it back -/

theorem digitChar_facts (k : Nat) (hk : k < 10) :
    (Nat.digitChar k).isDigit = true ∧ isJsWhiteSpace (Nat.digitChar k) = false ∧
      Nat.digitChar k ≠ '-' ∧ Nat.digitChar k ≠ '+' ∧ (Nat.digitChar k).toNat - 48 = k := by
  interval_cases k <;> decide

theorem toDigitsCore_spec (fuel : Nat) : ∀ (n : Nat) (ds : List Char), n < fuel →
    ∃ l, Nat.toDigitsCore 10 fuel n ds = l ++ ds ∧ l ≠ [] ∧
      (∀ c ∈ l, ∃ k, k < 10 ∧ c = Nat.digitChar k) ∧ digitsValue l = n := by
  induction fuel with
  | zero => intro n ds h; omega
  | succ fuel ih =>
    intro n ds h
    unfold Nat.toDigitsCore
    by_cases hq : n / 10 = 0
    · simp only [hq, if_true]
      refine ⟨[Nat.digitChar (n % 10)], rfl, by simp, ?_, ?_⟩
      · intro c hc
        exact ⟨n % 10, Nat.mod_lt _ (by decide), by simpa using hc⟩
      · have := (digitChar_facts (n % 10) (Nat.mod_lt _ (by decide))).2.2.2.2
        simp only [digitsValue, List.foldl_cons, List.foldl_nil, this]
        omega
    · simp only [hq, if_false]
      obtain ⟨l, hl, _, hdig, hval⟩ := ih (n / 10) (Nat.digitChar (n % 10) :: ds) (by omega)
      refine ⟨l ++ [Nat.digitChar (n % 10)], by simp [hl], by simp, ?_, ?_⟩
      · intro c hc
        rcases List.mem_append.mp hc with hc | hc
        · exact hdig c hc
        · exact ⟨n % 10, Nat.mod_lt _ (by decide), by simpa using hc⟩
      · have := (digitChar_facts (n % 10) (Nat.mod_lt _ (by decide))).2.2.2.2
        unfold digitsValue at hval ⊢
        rw [List.foldl_append]
        simp only [List.foldl_cons, List.foldl_nil, hval, this]
        omega

theorem toString_toList (n : Nat) : (toString n).toList = Nat.toDigits 10 n := rfl

theorem takeWhile_all {α : Type} (p : α → Bool) (l : List α) (h : ∀ x ∈ l, p x = true) :
    l.takeWhile p = l := by
  induction l with
  | nil => rfl
  | cons x t ih =>
    rw [List.takeWhile_cons, h x (List.mem_cons_self _ _)]
    simp only [if_true]
    rw [ih (fun y hy => h y (List.mem_cons_of_mem _ hy))]

/-- Reading back the decimal text of a clock value gives the value. -/
theorem parseInt_toString (n : Nat) : parseInt (toString n) = some (n : Int) := by
  obtain ⟨l, hl, hne, hdig, hval⟩ := toDigitsCore_spec (n + 1) n [] (Nat.lt_succ_self n)
  rw [List.append_nil] at hl
  have hlist : (toString n).toList = l := by rw [toString_toList]; exact hl
  unfold parseInt
  rw [hlist]
  cases l with
  | nil => exact absurd rfl hne
  | cons c t =>
    obtain ⟨k, hk, hck⟩ := hdig c (List.mem_cons_self _ _)
    obtain ⟨_, hws, hminus, hplus, _⟩ := digitChar_facts k hk
    rw [← hck] at hws hminus hplus
    have hdrop : (c :: t).dropWhile isJsWhiteSpace = c :: t := by
      rw [List.dropWhile_cons, hws]; rfl
    have hall : ∀ x ∈ c :: t, Char.isDigit x = true := by
      intro x hx
      obtain ⟨j, hj, hxj⟩ := hdig x hx
      rw [hxj]; exact (digitChar_facts j hj).1
    have hsign : (match c :: t with
        | '-' :: u => (true, u)
        | '+' :: u => (false, u)
        | _ => (false, c :: t)) = (false, c :: t) := by
      split
      · rename_i heq; exact absurd (List.cons.inj heq).1 hminus
      · rename_i heq; exact absurd (List.cons.inj heq).1 hplus
      · rfl
    simp only [hdrop, hsign, takeWhile_all _ _ hall, hval]
    simp

theorem toString_ne_empty (n : Nat) : toString n ≠ "" := by
  obtain ⟨l, hl, hne, _, _⟩ := toDigitsCore_spec (n + 1) n [] (Nat.lt_succ_self n)
  rw [List.append_nil] at hl
  intro hc
  have hlist : (toString n).toList = l := by rw [toString_toList]; exact hl
  rw [hc] at hlist
  exact hne hlist.symm

theorem cacheOf_put_open (s : CacheStorage) (name url : String) (r : Response) :
    ((s.open name).put true name url r).cacheOf name = Cache.put (s.cacheOf name) url r := by
  unfold CacheStorage.put
  simp only [if_true]
  rw [cacheOf_modify_self _ _ _ (mem_keys_open s name), cacheOf_open_self]

theorem delete_of_not_mem (c : Cache) (url : String) (h : url ∉ Cache.keys c) :
    Cache.delete c url = c := by
  unfold Cache.delete
  rw [List.filter_eq_self]
  intro e he
  have : e.1 ≠ url := fun hc => h (hc ▸ List.mem_map_of_mem (fun e => e.1) he)
  simp [this]

theorem drop_append_drop (l : List (String × Response)) (e : String × Response) (a b : Nat)
    (ha : a ≤ l.length) : (l.drop a ++ [e]).drop b = (l ++ [e]).drop (a + b) := by
  rw [← List.drop_append_of_le_length ha, List.drop_drop]

theorem cacheOf_writeAllAndTrim (s : CacheStorage) (name : String) (K : Nat)
    (entries : List (String × Response)) (hempty : s.cacheOf name = [])
    (hnd : (entries.map (fun e => e.1)).Nodup) :
    (writeAllAndTrim s name K entries).cacheOf name = entries.drop (entries.length - K) := by
  induction entries using List.reverseRecOn with
  | nil => simpa [writeAllAndTrim] using hempty
  | append_singleton l e ih =>
    have hndl : (l.map (fun e => e.1)).Nodup := by
      rw [List.map_append] at hnd
      exact (List.nodup_append.mp hnd).1
    have hnot : e.1 ∉ l.map (fun e => e.1) := by
      rw [List.map_append] at hnd
      have := (List.nodup_append.mp hnd).2.2
      intro hc
      exact this hc (by simp) 
    have ih := ih hndl
    unfold writeAllAndTrim at ih ⊢
    rw [List.foldl_append]
    simp only [List.foldl_cons, List.foldl_nil]
    set sl := List.foldl (fun acc e => writeAndTrim acc name K e) s l with hsl
    unfold writeAndTrim
    have hput : ((sl.open name).put true name e.1 e.2).cacheOf name
        = l.drop (l.length - K) ++ [e] := by
      rw [cacheOf_put_open, ih]
      unfold Cache.put
      rw [delete_of_not_mem]
      intro hc
      apply hnot
      have hsub : (l.drop (l.length - K)).Sublist l := List.drop_sublist _ _
      exact (List.Sublist.map (fun e : String × Response => e.1) hsub).subset hc
    have hnd2 : (Cache.keys (((sl.open name).put true name e.1 e.2).cacheOf name)).Nodup := by
      rw [hput]
      have hsub : (l.drop (l.length - K) ++ [e]).Sublist (l ++ [e]) :=
        List.Sublist.append (List.drop_sublist _ _) (List.Sublist.refl _)
      have hmap : (Cache.keys (l.drop (l.length - K) ++ [e])).Sublist
          ((l ++ [e]).map (fun e => e.1)) :=
        List.Sublist.map (fun e : String × Response => e.1) hsub
      exact List.Nodup.sublist hmap hnd
    rw [cacheOf_trimCache _ _ _ hnd2, hput, drop_append_drop _ _ _ _ (by omega)]
    congr 1
    simp only [List.length_append, List.length_drop, List.length_singleton]
    omega

/-! ## The tests of the classifier -/

theorem endsWith_iff (s pat : String) : endsWith s pat = true ↔ EndsWithText s pat := by
  unfold endsWith EndsWithText
  rw [List.isSuffixOf_iff_suffix]
  constructor
  · rintro ⟨pre, h⟩; exact ⟨pre, h.symm⟩
  · rintro ⟨pre, h⟩; exact ⟨pre, h.symm⟩

theorem containsText_iff (s pat : String) : containsText s pat = true ↔ OccursIn pat s := by
  unfold containsText OccursIn
  rw [List.any_eq_true]
  constructor
  · rintro ⟨t, ht, hp⟩
    rw [List.mem_tails] at ht
    obtain ⟨a, ha⟩ := ht
    obtain ⟨b, hb⟩ := List.isPrefixOf_iff_prefix.mp hp
    exact ⟨a, b, by rw [← ha, ← hb, List.append_assoc]⟩
  · rintro ⟨a, b, h⟩
    refine ⟨pat.toList ++ b, ?_, ?_⟩
    · rw [List.mem_tails]; exact ⟨a, by rw [h, List.append_assoc]⟩
    · exact List.isPrefixOf_iff_prefix.mpr ⟨b, rfl⟩

theorem lowerSuffix_iff (p ext : List Char) :
    ('.' :: ext).isSuffixOf (p.map Char.toLower) = true ↔
      ∃ pre suf : List Char, p = pre ++ suf ∧ suf.map Char.toLower = '.' :: ext := by
  rw [List.isSuffixOf_iff_suffix]
  constructor
  · rintro ⟨a, ha⟩
    obtain ⟨l₁, l₂, h, _, h₂⟩ := List.map_eq_append_iff.mp ha.symm
    exact ⟨l₁, l₂, h, h₂⟩
  · rintro ⟨pre, suf, h, hs⟩
    exact ⟨pre.map Char.toLower, by rw [h, List.map_append, hs]⟩

theorem isImagePath_iff (pathname : String) :
    isImagePath pathname = true ↔ HasImageExtension pathname := by
  unfold isImagePath HasImageExtension
  rw [List.any_eq_true]
  constructor
  · rintro ⟨ext, hext, h⟩
    exact ⟨ext, hext, (lowerSuffix_iff _ _).mp h⟩
  · rintro ⟨ext, hext, h⟩
    exact ⟨ext, hext, (lowerSuffix_iff _ _).mpr h⟩

theorem isPartialPath_iff (pathname : String) :
    isPartialPath pathname = true ↔
      (EndsWithText pathname "/assets/partials/header.html" ∨
        EndsWithText pathname "/assets/partials/footer.html") := by
  unfold isPartialPath
  rw [Bool.or_eq_true, endsWith_iff, endsWith_iff]

theorem isStylePath_iff (pathname : String) :
    isStylePath pathname = true ↔
      (EndsWithText pathname ".css" ∨ EndsWithText pathname ".js") := by
  unfold isStylePath
  rw [Bool.or_eq_true, endsWith_iff, endsWith_iff]

theorem firstMatch_chain (b1 bo b2 b3 b4 b5 b6 : Bool) :
    FirstMatch
      [ (b1 = true, .Navigation), (bo = true ∧ b2 = true, .Partial),
        (bo = true ∧ b3 = true, .StaticAsset), (b4 = true, .Image),
        (b5 = true, .SensitiveBypass), (b6 = true, .ExternalAPI), (True, .Default) ]
      (if b1 then Strategy.Navigation
        else if bo && b2 then .Partial
        else if bo && b3 then .StaticAsset
        else if b4 then .Image
        else if b5 then .SensitiveBypass
        else if b6 then .ExternalAPI
        else .Default) := by
  cases b1 <;> cases bo <;> cases b2 <;> cases b3 <;> cases b4 <;> cases b5 <;> cases b6 <;>
    simp [FirstMatch]

theorem rules_eq (origin : String) (req : Request) :
    rules origin req =
      [ ((req.mode == "navigate") = true, .Navigation),
        ((req.origin == origin) = true ∧ isPartialPath req.pathname = true, .Partial),
        ((req.origin == origin) = true ∧ isStylePath req.pathname = true, .StaticAsset),
        (isImagePath req.pathname = true, .Image),
        (isGeminiHost req.hostname = true, .SensitiveBypass),
        (isGoogleApisHost req.hostname = true, .ExternalAPI), (True, .Default) ] := by
  unfold rules
  simp only [isGeminiHost, isGoogleApisHost, beq_iff_eq, isPartialPath_iff, isStylePath_iff,
    isImagePath_iff, containsText_iff]

theorem classify_firstMatch (origin : String) (req : Request) :
    FirstMatch (rules origin req) (classify origin req) := by
  rw [rules_eq]
  exact firstMatch_chain _ _ _ _ _ _ _

theorem firstMatch_unique (rs : List (Prop × Strategy)) (a b : Strategy)
    (ha : FirstMatch rs a) (hb : FirstMatch rs b) : a = b := by
  induction rs with
  | nil => exact ha.elim
  | cons r rest ih =>
    rcases ha with ⟨h1, h2⟩ | ⟨h1, h2⟩ <;> rcases hb with ⟨h3, h4⟩ | ⟨h3, h4⟩
    · rw [h2, h4]
    · exact absurd h1 h3
    · exact absurd h3 h1
    · exact ih h2 h4

/-! ## Classification (C1, C2) -/

/-- C1: every GET request is answered by exactly one branch of the fetch
handler, and the branch depends only on the request's mode, origin
(compared with the worker's origin), pathname and hostname: two GET
requests equal in those fields run the same branch, whatever the store,
the network and the clock. -/
theorem C1_classification_total_deterministic (env₁ env₂ : Env) (s₁ s₂ : CacheStorage)
    (r₁ r₂ : Request) (hg₁ : r₁.method = "GET") (hg₂ : r₂.method = "GET")
    (horigin : env₁.origin = env₂.origin) (hmode : r₁.mode = r₂.mode)
    (ho : r₁.origin = r₂.origin) (hp : r₁.pathname = r₂.pathname)
    (hh : r₁.hostname = r₂.hostname) :
    ∃ st : Strategy,
      onFetch env₁ s₁ r₁ = some { strategy := st, result := runStrategy st env₁ s₁ r₁ } ∧
      onFetch env₂ s₂ r₂ = some { strategy := st, result := runStrategy st env₂ s₂ r₂ } := by
  refine ⟨classify env₁.origin r₁, ?_, ?_⟩
  · simp [onFetch, hg₁]
  · have hcl : classify env₂.origin r₂ = classify env₁.origin r₁ := by
      unfold classify
      rw [horigin, hmode, ho, hp, hh]
    simp [onFetch, hg₂, hcl]

theorem C1_witness :
    ∃ st : Strategy,
      onFetch offlineEnv [] (sameOriginGet "cors" "/assets/js/reader.js") =
        some { strategy := st
               result := runStrategy st offlineEnv []
                 (sameOriginGet "cors" "/assets/js/reader.js") } ∧
      onFetch (onlineEnv (pageResponse "x")) [("bse-img", [])]
          { sameOriginGet "cors" "/assets/js/reader.js" with url := "other" } =
        some { strategy := st
               result := runStrategy st (onlineEnv (pageResponse "x")) [("bse-img", [])]
                 { sameOriginGet "cors" "/assets/js/reader.js" with url := "other" } } :=
  C1_classification_total_deterministic offlineEnv (onlineEnv (pageResponse "x")) []
    [("bse-img", [])] (sameOriginGet "cors" "/assets/js/reader.js")
    { sameOriginGet "cors" "/assets/js/reader.js" with url := "other" }
    rfl rfl rfl rfl rfl rfl rfl

/-- C2: for every GET request the branch taken is that of the first rule, in
the order of the specification, whose condition holds; no other strategy
satisfies first-match; a navigation request is Navigation whatever its
path and host, and a request whose host contains the Gemini host name is
never ExternalAPI. -/
theorem C2_first_match_wins (env : Env) (s : CacheStorage) (req : Request)
    (hg : req.method = "GET") :
    ∃ h : Handled, onFetch env s req = some h ∧
      FirstMatch (rules env.origin req) h.strategy ∧
      (∀ st, FirstMatch (rules env.origin req) st → st = h.strategy) ∧
      (req.mode = "navigate" → h.strategy = .Navigation) ∧
      (OccursIn "generativelanguage.googleapis.com" req.hostname →
        h.strategy ≠ .ExternalAPI) := by
  refine ⟨_, by simp only [onFetch, hg]; rfl, classify_firstMatch _ _,
    fun st hst => firstMatch_unique _ _ _ hst (classify_firstMatch _ _), ?_, ?_⟩
  · intro hnav
    simp [classify, hnav]
  · intro hgem
    have hb : isGeminiHost req.hostname = true := (containsText_iff _ _).mpr hgem
    simp only [classify]
    split_ifs <;> simp_all

theorem C2_witness :
    ∃ h : Handled,
      onFetch offlineEnv [] (crossOriginGet "generativelanguage.googleapis.com" "/v1/x") =
        some h ∧
      FirstMatch
        (rules offlineEnv.origin (crossOriginGet "generativelanguage.googleapis.com" "/v1/x"))
        h.strategy ∧
      (∀ st, FirstMatch
        (rules offlineEnv.origin (crossOriginGet "generativelanguage.googleapis.com" "/v1/x"))
        st → st = h.strategy) ∧
      ((crossOriginGet "generativelanguage.googleapis.com" "/v1/x").mode = "navigate" →
        h.strategy = .Navigation) ∧
      (OccursIn "generativelanguage.googleapis.com"
          (crossOriginGet "generativelanguage.googleapis.com" "/v1/x").hostname →
        h.strategy ≠ .ExternalAPI) :=
  C2_first_match_wins offlineEnv [] (crossOriginGet "generativelanguage.googleapis.com" "/v1/x")
    rfl

/-! ## Navigation when the network is down (C3) -/

theorem matchKey_nil (url : String) : Cache.matchKey [] url = none := rfl

theorem subset_open (s : CacheStorage) (name : String) : ∀ e ∈ s, e ∈ s.open name := by
  intro e he
  unfold CacheStorage.open
  split
  · exact he
  · exact List.mem_append_left _ he

theorem mem_open (s : CacheStorage) (name : String) (e : String × Cache)
    (he : e ∈ s.open name) : e ∈ s ∨ e.2 = [] := by
  unfold CacheStorage.open at he
  split at he
  · exact Or.inl he
  · rcases List.mem_append.mp he with h | h
    · exact Or.inl h
    · right
      simp only [List.mem_singleton] at h
      rw [h]

theorem cacheOf_matchKey_mem (s : CacheStorage) (name url : String) (r : Response)
    (h : (s.cacheOf name).matchKey url = some r) :
    ∃ e ∈ s, Cache.matchKey e.2 url = some r := by
  unfold CacheStorage.cacheOf at h
  cases hf : s.find? (fun e => e.1 == name) with
  | none => rw [hf] at h; exact absurd h (by simp [Cache.matchKey])
  | some e =>
    rw [hf] at h
    exact ⟨e, List.mem_of_find?_eq_some hf, h⟩

theorem matchAny_some (s : CacheStorage) (url : String) (r : Response)
    (h : s.matchAny url = some r) : ∃ e ∈ s, Cache.matchKey e.2 url = some r := by
  unfold CacheStorage.matchAny at h
  exact List.exists_of_findSome?_eq_some h

theorem matchAny_none (s : CacheStorage) (url : String) (h : s.matchAny url = none) :
    ∀ e ∈ s, Cache.matchKey e.2 url = none := by
  unfold CacheStorage.matchAny at h
  exact List.findSome?_eq_none_iff.mp h

theorem networkFirst_failed (env : Env) (s : CacheStorage) (req : Request) (name : String)
    (timeoutMs : Nat) (hfail : env.net = none ∨ timeoutMs ≤ env.latency) :
    networkFirst env s req name timeoutMs =
      match ((s.open name).cacheOf name).matchKey req.url with
      | some cached =>
        { outcome := .response cached, caches := s.open name
          log := [.cachesOpen name, .fetch req.url, .cacheMatch name req.url] }
      | none =>
        { outcome := .rejected, caches := s.open name
          log := [.cachesOpen name, .fetch req.url, .cacheMatch name req.url] } := by
  have hs : (if env.latency < timeoutMs then env.net else none) = none := by
    rcases hfail with h | h
    · simp [h]
    · simp [Nat.not_lt.mpr h]
  unfold networkFirst
  simp only [hs]

/-- C3: a navigation GET request for which no preload response exists
(the preload promise gives undefined, or is rejected) and whose network
fetch fails or times out is never rejected: the handler resolves with a
response, which is a cached copy of the request when some namespace holds
one, and the offline document, whose text carries the title
"Offline - Book Shelf Explorer", when no namespace holds a copy. -/
theorem C3_navigation_failure_falls_back (env : Env) (s : CacheStorage) (req : Request)
    (hg : req.method = "GET") (hnav : req.mode = "navigate")
    (hpre : ∀ p, env.preload ≠ .response p)
    (hfail : env.net = none ∨ 5000 ≤ env.latency) :
    ∃ (h : Handled) (r : Response), onFetch env s req = some h ∧
      h.strategy = .Navigation ∧ h.result.outcome = .response r ∧
      ((∃ e ∈ s, Cache.matchKey e.2 req.url ≠ none) →
        ∃ e ∈ s, Cache.matchKey e.2 req.url = some r) ∧
      ((∀ e ∈ s, Cache.matchKey e.2 req.url = none) → r = offlineFallbackResponse) ∧
      (∃ pre post : String, offlineFallbackResponse.body =
        pre ++ "<title>Offline - Book Shelf Explorer</title>" ++ post) := by
  have hcl : classify env.origin req = .Navigation := by simp [classify, hnav]
  have hon : onFetch env s req =
      some { strategy := .Navigation, result := handleNavigation env s req } := by
    simp [onFetch, hg, hcl, runStrategy]
  have htitle : ∃ pre post : String, offlineFallbackResponse.body =
      pre ++ "<title>Offline - Book Shelf Explorer</title>" ++ post := ⟨_, _, rfl⟩
  have hnf := networkFirst_failed env s req CACHE_NAMES.pages 5000 hfail
  cases hp : env.preload with
  | response p => exact absurd hp (hpre p)
  | rejected =>
    cases hany : s.matchAny req.url with
    | some cached =>
      have hres : (handleNavigation env s req).outcome = .response cached := by
        simp only [handleNavigation, hp, navigationCaught, hany]
      obtain ⟨e, he, hem⟩ := matchAny_some _ _ _ hany
      refine ⟨_, cached, hon, rfl, hres, fun _ => ⟨e, he, hem⟩, ?_, htitle⟩
      intro hall
      rw [hall e he] at hem
      exact absurd hem (by simp)
    | none =>
      have hres : (handleNavigation env s req).outcome = .response offlineFallbackResponse := by
        simp only [handleNavigation, hp, navigationCaught, hany]
      refine ⟨_, offlineFallbackResponse, hon, rfl, hres, ?_, fun _ => rfl, htitle⟩
      rintro ⟨e, he, hne⟩
      exact absurd (matchAny_none _ _ hany e he) hne
  | absent =>
    cases hpages : ((s.open CACHE_NAMES.pages).cacheOf CACHE_NAMES.pages).matchKey req.url with
    | some cached =>
      rw [hpages] at hnf
      have hres : handleNavigation env s req =
          { outcome := .response cached, caches := s.open CACHE_NAMES.pages
            log := [.cachesOpen CACHE_NAMES.pages, .fetch req.url,
              .cacheMatch CACHE_NAMES.pages req.url] } := by
        simp only [handleNavigation, hp, hnf]
      rw [cacheOf_open_self] at hpages
      obtain ⟨e, he, hem⟩ := cacheOf_matchKey_mem _ _ _ _ hpages
      refine ⟨_, cached, hon, rfl, by rw [hres], fun _ => ⟨e, he, hem⟩, ?_, htitle⟩
      intro hall
      rw [hall e he] at hem
      exact absurd hem (by simp)
    | none =>
      rw [hpages] at hnf
      cases hany : (s.open CACHE_NAMES.pages).matchAny req.url with
      | some cached =>
        have hres : (handleNavigation env s req).outcome = .response cached := by
          simp only [handleNavigation, hp, hnf, navigationCaught, hany]
        obtain ⟨e, he, hem⟩ := matchAny_some _ _ _ hany
        have hes : e ∈ s := by
          rcases mem_open _ _ _ he with h | h
          · exact h
          · rw [h, matchKey_nil] at hem; exact absurd hem (by simp)
        refine ⟨_, cached, hon, rfl, hres, fun _ => ⟨e, hes, hem⟩, ?_, htitle⟩
        intro hall
        rw [hall e hes] at hem
        exact absurd hem (by simp)
      | none =>
        have hres :
            (handleNavigation env s req).outcome = .response offlineFallbackResponse := by
          simp only [handleNavigation, hp, hnf, navigationCaught, hany]
        refine ⟨_, offlineFallbackResponse, hon, rfl, hres, ?_, fun _ => rfl, htitle⟩
        rintro ⟨e, he, hne⟩
        exact absurd (matchAny_none _ _ hany e (subset_open _ _ e he)) hne

theorem C3_witness :
    ∃ (h : Handled) (r : Response),
      onFetch offlineEnv shellStore (sameOriginGet "navigate" "/index.html") = some h ∧
      h.strategy = .Navigation ∧ h.result.outcome = .response r ∧
      ((∃ e ∈ shellStore,
          Cache.matchKey e.2 (sameOriginGet "navigate" "/index.html").url ≠ none) →
        ∃ e ∈ shellStore,
          Cache.matchKey e.2 (sameOriginGet "navigate" "/index.html").url = some r) ∧
      ((∀ e ∈ shellStore,
          Cache.matchKey e.2 (sameOriginGet "navigate" "/index.html").url = none) →
        r = offlineFallbackResponse) ∧
      (∃ pre post : String, offlineFallbackResponse.body =
        pre ++ "<title>Offline - Book Shelf Explorer</title>" ++ post) :=
  C3_navigation_failure_falls_back offlineEnv shellStore (sameOriginGet "navigate" "/index.html")
    rfl rfl (fun _ h => Preload.noConfusion h) (Or.inl rfl)

/-! ## Time to live of images and API responses (C4, C5) -/

theorem matchKey_delete_self (c : Cache) (url : String) :
    Cache.matchKey (Cache.delete c url) url = none := by
  unfold Cache.matchKey Cache.delete
  rw [Option.map_eq_none', List.find?_eq_none]
  intro e he
  have := (List.mem_filter.mp he).2
  simpa using this

theorem fetch_mem_log_fetchAndStoreImage (env : Env) (s : CacheStorage) (req : Request)
    (name : String) : Effect.fetch req.url ∈ (fetchAndStoreImage env s req name).log := by
  unfold fetchAndStoreImage
  simp only
  split
  · split
    · split
      · simp
      · split <;> simp
    · simp
  · split <;> simp

/-- C4: an image entry whose `sw-cached-at` header is the decimal text of
`T`, read at clock time `t`: when `t - T` is at most thirty days the entry
is returned as it is, with no network fetch and no cache write; when
`t - T` exceeds thirty days the entry is deleted and the result is that of
a fresh fetch-and-store on the store without the entry. -/
theorem C4_image_ttl (env : Env) (s : CacheStorage) (req : Request) (e : Response) (T : Nat)
    (hc : (s.cacheOf CACHE_NAMES.images).matchKey req.url = some e)
    (hT : Headers.get e.headers "sw-cached-at" = some (toString T)) :
    ((env.now : Int) - T ≤ MAX_IMAGE_AGE →
      (imageCache env s req).outcome = .response e ∧ (imageCache env s req).caches = s ∧
      ∀ x ∈ (imageCache env s req).log, x.isFetch = false ∧ x.isWrite = false) ∧
    ((env.now : Int) - T > MAX_IMAGE_AGE →
      ((s.modify CACHE_NAMES.images (fun c => Cache.delete c req.url)).cacheOf
        CACHE_NAMES.images).matchKey req.url = none ∧
      (imageCache env s req).outcome =
        (fetchAndStoreImage env (s.modify CACHE_NAMES.images (fun c => Cache.delete c req.url))
          req CACHE_NAMES.images).outcome ∧
      (imageCache env s req).caches =
        (fetchAndStoreImage env (s.modify CACHE_NAMES.images (fun c => Cache.delete c req.url))
          req CACHE_NAMES.images).caches ∧
      Effect.cacheDelete CACHE_NAMES.images req.url ∈ (imageCache env s req).log ∧
      Effect.fetch req.url ∈ (imageCache env s req).log) := by
  have hmem := mem_keys_of_matchKey _ _ _ _ hc
  have hopen : s.open CACHE_NAMES.images = s := open_eq_self_of_mem _ _ hmem
  constructor
  · intro hage
    have hexp : decide ((env.now : Int) - (T : Int) > (MAX_IMAGE_AGE : Int)) = false := by
      simp only [decide_eq_false_iff_not, not_lt]; exact hage
    unfold imageCache
    simp only [hopen, hc, hT, toString_ne_empty, parseInt_toString, hexp, beq_iff_eq, if_false,
      Bool.false_eq_true]
    refine ⟨trivial, trivial, ?_⟩
    intro x hx
    simp only [List.mem_cons, List.mem_singleton, List.not_mem_nil, or_false] at hx
    rcases hx with hx | hx <;> rw [hx] <;> exact ⟨rfl, rfl⟩
  · intro hage
    have hexp : decide ((env.now : Int) - (T : Int) > (MAX_IMAGE_AGE : Int)) = true := by
      simp only [decide_eq_true_eq]; exact hage
    refine ⟨?_, ?_⟩
    · rw [cacheOf_modify_self _ _ _ hmem]
      exact matchKey_delete_self _ _
    · unfold imageCache
      simp only [hopen, hc, hT, toString_ne_empty, parseInt_toString, hexp, beq_iff_eq, if_false,
        if_true]
      refine ⟨trivial, trivial, by simp, ?_⟩
      apply List.mem_append_right
      exact fetch_mem_log_fetchAndStoreImage _ _ _ _

theorem C4_witness :
    (imageCache (offlineAt 1730000000000) (imageStore 1729000000000) coverRequest).outcome =
        .response (stampedImage 1729000000000) ∧
      (imageCache (offlineAt 1730000000000) (imageStore 1729000000000) coverRequest).caches =
        imageStore 1729000000000 ∧
      ∀ x ∈ (imageCache (offlineAt 1730000000000) (imageStore 1729000000000) coverRequest).log,
        x.isFetch = false ∧ x.isWrite = false :=
  (C4_image_ttl (offlineAt 1730000000000) (imageStore 1729000000000) coverRequest
    (stampedImage 1729000000000) 1729000000000 (by decide) (by decide)).1 (by decide)

/-- C5, as the claim states it, fails: an API entry stamped at `T`, read
exactly six hours later while the network is down, is within `t - T <= 6
hours` and yet nothing is served, the failure propagates. -/
theorem C5_counterexample :
    (offlineAt (1730000000000 + 21600000)).net = none ∧
      ((apiStore 1730000000000).cacheOf CACHE_NAMES.api).matchKey booksRequest.url =
        some (stampedApi 1730000000000) ∧
      Headers.get (stampedApi 1730000000000).headers "sw-fetched-at" =
        some (toString 1730000000000) ∧
      (((offlineAt (1730000000000 + 21600000)).now : Int) - (1730000000000 : Nat) ≤
        (MAX_API_AGE : Int)) ∧
      (apiNetworkFirstWithTTL (offlineAt (1730000000000 + 21600000)) (apiStore 1730000000000)
        booksRequest).outcome = .rejected := by
  decide

/-- C5 (amended): when the network fetch fails, an API entry whose
`sw-fetched-at` header is the decimal text of `T` is returned at clock time
`t` when `T` is not zero and `t - T` is below six hours; when `t - T` is six
hours or more, or `T` is zero, nothing is served and the failure
propagates; with no cached entry the failure propagates too. -/
theorem C5_api_ttl_fallback (env : Env) (s : CacheStorage) (req : Request)
    (hfail : env.net = none) :
    (∀ (e : Response) (T : Nat),
      (s.cacheOf CACHE_NAMES.api).matchKey req.url = some e →
      Headers.get e.headers "sw-fetched-at" = some (toString T) →
        ((T ≠ 0 ∧ (env.now : Int) - T < MAX_API_AGE) →
          (apiNetworkFirstWithTTL env s req).outcome = .response e) ∧
        (((MAX_API_AGE : Int) ≤ (env.now : Int) - T ∨ T = 0) →
          (apiNetworkFirstWithTTL env s req).outcome = .rejected)) ∧
    ((s.cacheOf CACHE_NAMES.api).matchKey req.url = none →
      (apiNetworkFirstWithTTL env s req).outcome = .rejected) := by
  constructor
  · intro e T hc hT
    constructor
    · rintro ⟨hT0, hage⟩
      have h1 : decide ((T : Int) ≠ 0) = true := by
        simp only [decide_eq_true_eq]; exact_mod_cast hT0
      have h2 : decide ((env.now : Int) - (T : Int) < (MAX_API_AGE : Int)) = true := by
        simp only [decide_eq_true_eq]; exact hage
      unfold apiNetworkFirstWithTTL
      simp only [hfail, cacheOf_open_self, hc, hT, toString_ne_empty, parseInt_toString,
        beq_iff_eq, if_false, h1, h2, Bool.and_self, if_true]
    · intro hexp
      have h12 : (decide ((T : Int) ≠ 0) &&
          decide ((env.now : Int) - (T : Int) < (MAX_API_AGE : Int))) = false := by
        rcases hexp with h | h
        · have : decide ((env.now : Int) - (T : Int) < (MAX_API_AGE : Int)) = false := by
            simp only [decide_eq_false_iff_not, not_lt]; exact h
          rw [this, Bool.and_false]
        · have : decide ((T : Int) ≠ 0) = false := by
            simp only [decide_eq_false_iff_not, not_not]; exact_mod_cast h
          rw [this, Bool.false_and]
      unfold apiNetworkFirstWithTTL
      simp only [hfail, cacheOf_open_self, hc, hT, toString_ne_empty, parseInt_toString,
        beq_iff_eq, if_false, h12, Bool.false_eq_true]
  · intro hc
    unfold apiNetworkFirstWithTTL
    simp only [hfail, cacheOf_open_self, hc]

theorem C5_witness :
    (apiNetworkFirstWithTTL (offlineAt (1730000000000 + 3600000)) (apiStore 1730000000000)
      booksRequest).outcome = .response (stampedApi 1730000000000) :=
  ((C5_api_ttl_fallback (offlineAt (1730000000000 + 3600000)) (apiStore 1730000000000)
    booksRequest rfl).1 (stampedApi 1730000000000) 1730000000000 (by decide) (by decide)).1
    ⟨by decide, by decide⟩

/-! ## The eviction trimmer (C6, C7) -/

/-- C6: starting from an empty namespace, after the writes of `N` entries
with distinct keys, each followed by `trimCache(namespace, K)`, with
`N > K`, exactly `K` entries remain, and they are the last `K` entries
written, in insertion order. -/
theorem C6_eviction_bound (s : CacheStorage) (name : String) (K : Nat)
    (entries : List (String × Response)) (hempty : s.cacheOf name = [])
    (hnd : (entries.map (fun e => e.1)).Nodup) (hN : K < entries.length) :
    ((writeAllAndTrim s name K entries).cacheOf name).length = K ∧
      (writeAllAndTrim s name K entries).cacheOf name = entries.drop (entries.length - K) ∧
      Cache.keys ((writeAllAndTrim s name K entries).cacheOf name) =
        (entries.map (fun e => e.1)).drop (entries.length - K) := by
  have h := cacheOf_writeAllAndTrim s name K entries hempty hnd
  refine ⟨?_, h, ?_⟩
  · rw [h, List.length_drop]; omega
  · rw [h, Cache.keys, List.map_drop]

theorem C6_witness :
    ((writeAllAndTrim [] "bse-img" 2 threeEntries).cacheOf "bse-img").length = 2 ∧
      (writeAllAndTrim [] "bse-img" 2 threeEntries).cacheOf "bse-img" =
        threeEntries.drop (threeEntries.length - 2) ∧
      Cache.keys ((writeAllAndTrim [] "bse-img" 2 threeEntries).cacheOf "bse-img") =
        (threeEntries.map (fun e => e.1)).drop (threeEntries.length - 2) :=
  C6_eviction_bound [] "bse-img" 2 threeEntries rfl (by decide) (by decide)

/-- C7: for a namespace whose `n` entries have distinct keys and every
`maxEntries = K`, `trimCache` leaves the namespace as it is when `n <= K`
(and the whole store when the namespace exists); when `n > K` it removes
the first `n - K` entries of the enumeration and keeps the last `K` in
their order; the count afterwards is `min n K`; a second run changes
nothing. -/
theorem C7_trimCache_keeps_newest (s : CacheStorage) (name : String) (K : Nat)
    (hnd : (Cache.keys (s.cacheOf name)).Nodup) :
    ((s.cacheOf name).length ≤ K →
      (trimCache s name K).cacheOf name = s.cacheOf name ∧
      (name ∈ s.keys → trimCache s name K = s)) ∧
    (K < (s.cacheOf name).length →
      s.cacheOf name = (s.cacheOf name).take ((s.cacheOf name).length - K) ++
        (trimCache s name K).cacheOf name ∧
      Cache.keys ((trimCache s name K).cacheOf name) =
        (Cache.keys (s.cacheOf name)).drop ((s.cacheOf name).length - K)) ∧
    ((trimCache s name K).cacheOf name).length = min (s.cacheOf name).length K ∧
    trimCache (trimCache s name K) name K = trimCache s name K := by
  have h := cacheOf_trimCache s name K hnd
  refine ⟨?_, ?_, ?_, trimCache_idem s name K hnd⟩
  · intro hle
    refine ⟨?_, ?_⟩
    · rw [h, Nat.sub_eq_zero_of_le hle, List.drop_zero]
    · intro hmem
      rw [trimCache_of_le _ _ _ hle, open_eq_self_of_mem _ _ hmem]
  · intro _
    refine ⟨?_, ?_⟩
    · rw [h, List.take_append_drop]
    · rw [h, Cache.keys, Cache.keys, List.map_drop]
  · rw [h, List.length_drop]; omega

theorem C7_witness :
    ((trimCache [("bse-img", threeEntries)] "bse-img" 2).cacheOf "bse-img").length =
      min (CacheStorage.cacheOf [("bse-img", threeEntries)] "bse-img").length 2 :=
  (C7_trimCache_keeps_newest [("bse-img", threeEntries)] "bse-img" 2 (by decide)).2.2.1

/-! ## Stale-while-revalidate (C8, C9) -/

theorem swr_outcome (env : Env) (s : CacheStorage) (req : Request) (name : String) :
    (staleWhileRevalidate env s req name).outcome =
      match (s.cacheOf name).matchKey req.url with
      | some c => .response c
      | none =>
        match env.net with
        | some resp => .response resp
        | none => .null := by
  unfold staleWhileRevalidate
  simp only [cacheOf_open_self]
  cases (s.cacheOf name).matchKey req.url with
  | some c => rfl
  | none =>
    cases env.net with
    | none => rfl
    | some resp => simp only; split <;> rfl

theorem swr_caches (env : Env) (s : CacheStorage) (req : Request) (name : String) :
    (staleWhileRevalidate env s req name).caches =
      match env.net with
      | some resp =>
        if resp.ok then (s.open name).put env.putOk name req.url resp else s.open name
      | none => s.open name := by
  unfold staleWhileRevalidate
  simp only
  cases ((s.open name).cacheOf name).matchKey req.url <;> cases env.net <;>
    simp only <;> split <;> rfl

theorem matchKey_put_self (c : Cache) (url : String) (r : Response) :
    Cache.matchKey (Cache.put c url r) url = some r := by
  have hdel := matchKey_delete_self c url
  unfold Cache.matchKey at hdel ⊢
  unfold Cache.put
  rw [Option.map_eq_none'] at hdel
  rw [List.find?_append, hdel]
  simp

/-- C8: `staleWhileRevalidate` returns the cached copy whenever the assets
cache holds one for the request, whatever the network does; without a
cached copy it returns what the network fetch gives: the response (ok or
not), and `null`, not an error, when the fetch fails. -/
theorem C8_swr_returns_cached_first (env : Env) (s : CacheStorage) (req : Request) :
    (staleWhileRevalidate env s req CACHE_NAMES.assets).outcome =
      match (s.cacheOf CACHE_NAMES.assets).matchKey req.url with
      | some cached => .response cached
      | none =>
        match env.net with
        | some resp => .response resp
        | none => .null :=
  swr_outcome env s req CACHE_NAMES.assets

/-- C9, as the claim states it, fails: the assets namespace holds `E`, the
fetch resolves with an ok response `E2`, and the store refuses the write
(here a response with status 206, which the platform never stores): the
namespace still holds `E` and the next call returns `E`, not `E2`. -/
theorem C9_counterexample :
    (assetStore.cacheOf CACHE_NAMES.assets).matchKey scriptRequest.url =
        some (pageResponse "old script") ∧
      (refusingEnv partialContent).net = some partialContent ∧ partialContent.ok = true ∧
      ((staleWhileRevalidate (refusingEnv partialContent) assetStore scriptRequest
        CACHE_NAMES.assets).caches.cacheOf CACHE_NAMES.assets).matchKey scriptRequest.url =
          some (pageResponse "old script") ∧
      (staleWhileRevalidate offlineEnv
        (staleWhileRevalidate (refusingEnv partialContent) assetStore scriptRequest
          CACHE_NAMES.assets).caches scriptRequest CACHE_NAMES.assets).outcome =
        .response (pageResponse "old script") := by
  decide

/-- C9 (amended): with a cached entry `E` for the request,
`staleWhileRevalidate` returns `E`; when its fetch resolved with an ok
response `E2` and the write of `E2` succeeded, the assets namespace holds
`E2` for the request and the next call returns `E2`; when the fetch fails
or gives a status that is not ok, or the write fails, the store is left
as it was and the caller still gets `E`. -/
theorem C9_swr_freshness (env : Env) (s : CacheStorage) (req : Request) (E : Response)
    (hc : (s.cacheOf CACHE_NAMES.assets).matchKey req.url = some E) :
    (staleWhileRevalidate env s req CACHE_NAMES.assets).outcome = .response E ∧
    (∀ E2 : Response, env.net = some E2 → E2.ok = true → env.putOk = true →
      (((staleWhileRevalidate env s req CACHE_NAMES.assets).caches).cacheOf
        CACHE_NAMES.assets).matchKey req.url = some E2 ∧
      ∀ env2 : Env,
        (staleWhileRevalidate env2 (staleWhileRevalidate env s req CACHE_NAMES.assets).caches
          req CACHE_NAMES.assets).outcome = .response E2) ∧
    ((env.net = none ∨ (∃ r, env.net = some r ∧ r.ok = false) ∨ env.putOk = false) →
      (staleWhileRevalidate env s req CACHE_NAMES.assets).caches = s ∧
      ∀ env2 : Env,
        (staleWhileRevalidate env2 (staleWhileRevalidate env s req CACHE_NAMES.assets).caches
          req CACHE_NAMES.assets).outcome = .response E) := by
  have hmem := mem_keys_of_matchKey _ _ _ _ hc
  have hopen : s.open CACHE_NAMES.assets = s := open_eq_self_of_mem _ _ hmem
  refine ⟨by rw [swr_outcome, hc], ?_, ?_⟩
  · intro E2 hnet hok hput
    have hheld : (((staleWhileRevalidate env s req CACHE_NAMES.assets).caches).cacheOf
        CACHE_NAMES.assets).matchKey req.url = some E2 := by
      rw [swr_caches, hnet]
      simp only [hok, if_true, hput, hopen, CacheStorage.put]
      rw [cacheOf_modify_self _ _ _ hmem]
      exact matchKey_put_self _ _ _
    refine ⟨hheld, ?_⟩
    intro env2
    rw [swr_outcome, hheld]
  · intro hfail
    have hsame : (staleWhileRevalidate env s req CACHE_NAMES.assets).caches = s := by
      rw [swr_caches]
      rcases hfail with h | ⟨r, h, hr⟩ | h
      · rw [h]; exact hopen
      · rw [h]; simp only [hr, Bool.false_eq_true, if_false]; exact hopen
      · cases hn : env.net with
        | none => exact hopen
        | some r =>
          simp only
          split
          · simp only [CacheStorage.put, h, Bool.false_eq_true, if_false]; exact hopen
          · exact hopen
    refine ⟨hsame, ?_⟩
    intro env2
    rw [hsame, swr_outcome, hc]

theorem C9_witness :
    (staleWhileRevalidate (onlineEnv (pageResponse "new script")) assetStore scriptRequest
      CACHE_NAMES.assets).outcome = .response (pageResponse "old script") ∧
    (staleWhileRevalidate offlineEnv
      (staleWhileRevalidate (onlineEnv (pageResponse "new script")) assetStore scriptRequest
        CACHE_NAMES.assets).caches scriptRequest CACHE_NAMES.assets).outcome =
      .response (pageResponse "new script") :=
  ⟨(C9_swr_freshness (onlineEnv (pageResponse "new script")) assetStore scriptRequest
      (pageResponse "old script") (by decide)).1,
   ((C9_swr_freshness (onlineEnv (pageResponse "new script")) assetStore scriptRequest
      (pageResponse "old script") (by decide)).2.1 (pageResponse "new script") rfl
      (by decide) rfl).2 offlineEnv⟩

/-! ## The Gemini bypass (C10) -/

/-- C10: a GET request that the handler classifies as SensitiveBypass gets
the network response when the fetch succeeds and otherwise the response
with status 503 and body "Gemini API unreachable"; the handler is never
rejected, the store is left as it was, and no call reads or writes a cache. -/
theorem C10_sensitive_bypass (env : Env) (s : CacheStorage) (req : Request)
    (hg : req.method = "GET") (hcl : classify env.origin req = .SensitiveBypass) :
    ∃ h : Handled, onFetch env s req = some h ∧ h.strategy = .SensitiveBypass ∧
      (∀ r, env.net = some r → h.result.outcome = .response r) ∧
      (env.net = none → h.result.outcome = .response geminiUnreachable) ∧
      geminiUnreachable.status = 503 ∧ geminiUnreachable.body = "Gemini API unreachable" ∧
      h.result.outcome ≠ .rejected ∧ h.result.caches = s ∧
      ∀ x ∈ h.result.log, x.touchesCache = false := by
  have hon : onFetch env s req =
      some { strategy := .SensitiveBypass, result := handleGemini env s req } := by
    simp [onFetch, hg, hcl, runStrategy]
  refine ⟨_, hon, rfl, ?_, ?_, rfl, rfl, ?_, ?_, ?_⟩
  · intro r hr; simp only [handleGemini, hr]
  · intro hr; simp only [handleGemini, hr]
  · simp only [handleGemini]; split <;> simp
  · simp only [handleGemini]; split <;> rfl
  · intro x hx
    simp only [handleGemini] at hx
    split at hx <;> simp only [List.mem_singleton] at hx <;> rw [hx] <;> rfl

theorem C10_witness :
    ∃ h : Handled, onFetch offlineEnv shellStore geminiRequest = some h ∧
      h.strategy = .SensitiveBypass ∧
      (∀ r, offlineEnv.net = some r → h.result.outcome = .response r) ∧
      (offlineEnv.net = none → h.result.outcome = .response geminiUnreachable) ∧
      geminiUnreachable.status = 503 ∧ geminiUnreachable.body = "Gemini API unreachable" ∧
      h.result.outcome ≠ .rejected ∧ h.result.caches = shellStore ∧
      ∀ x ∈ h.result.log, x.touchesCache = false :=
  C10_sensitive_bypass offlineEnv shellStore geminiRequest rfl (by decide)

/-! ## The Gemini host and the image branch (C11) -/

/-- C11, at an input where the code departs from it: a GET request to the
host generativelanguage.googleapis.com whose path ends in `.png` is taken
by the image branch, which comes before the Gemini test, and the ok
response of the network is written, stamped, to the images namespace. -/
theorem C11_gemini_image_path_is_cached :
    geminiImageRequest.method = "GET" ∧
      geminiImageRequest.hostname = "generativelanguage.googleapis.com" ∧
      (onFetch (onlineEnv (pageResponse "secret")) [] geminiImageRequest).map
        (fun h => h.strategy) = some Strategy.Image ∧
      (onFetch (onlineEnv (pageResponse "secret")) [] geminiImageRequest).map
        (fun h => (h.result.caches.cacheOf CACHE_NAMES.images).matchKey geminiImageRequest.url) =
        some (some
          { status := 200, statusText := "OK"
            headers := [("content-type", "text/html"), ("sw-cached-at", "1730000000000")]
            body := "secret" }) ∧
      (onFetch (onlineEnv (pageResponse "secret")) [] geminiImageRequest).map
        (fun h => putTargets h.result.log) = some [CACHE_NAMES.images] := by
  decide

/-! ## Images: failures and stamping (C12, C13) -/

/-- C12, at an input where the code departs from it: the images namespace
holds an entry stamped thirty-one days ago and the network is down; the
entry is deleted before the fetch, so the fallback lookup finds nothing:
the result is the network-error response, not the entry, and the entry is
gone from the store. -/
theorem C12_expired_image_not_served_offline :
    ((imageStore (1730000000000 - thirtyOneDays)).cacheOf CACHE_NAMES.images).matchKey
        coverRequest.url = some (stampedImage (1730000000000 - thirtyOneDays)) ∧
      (offlineAt 1730000000000).net = none ∧
      (imageCache (offlineAt 1730000000000) (imageStore (1730000000000 - thirtyOneDays))
        coverRequest).outcome = .response Response.error ∧
      (imageCache (offlineAt 1730000000000) (imageStore (1730000000000 - thirtyOneDays))
        coverRequest).outcome ≠ .response (stampedImage (1730000000000 - thirtyOneDays)) ∧
      ((imageCache (offlineAt 1730000000000) (imageStore (1730000000000 - thirtyOneDays))
        coverRequest).caches.cacheOf CACHE_NAMES.images).matchKey coverRequest.url = none := by
  decide

/-- C13, at an input where the code departs from it: on an image miss the
network gives a response with the ok status 204; building the stamped
copy throws, the catch block finds no cached copy, and the result is the
network-error response: the response of the network is neither returned
nor stored. -/
theorem C13_no_content_image_not_stamped :
    noContent.ok = true ∧
      (CacheStorage.cacheOf [] CACHE_NAMES.images).matchKey coverRequest.url = none ∧
      (imageCache (onlineEnv noContent) [] coverRequest).outcome = .response Response.error ∧
      ((imageCache (onlineEnv noContent) [] coverRequest).caches.cacheOf
        CACHE_NAMES.images) = [] := by
  decide

/-! ## The API branch on a successful fetch (C14) -/

/-- C14, at an input where the code departs from it: the network gives a
response with the ok status 204 while the API namespace holds a fresh
copy; building the stamped copy throws and the catch block returns the
cached copy in place of the network response. -/
theorem C14_no_content_api_serves_cache :
    noContent.ok = true ∧
      (apiNetworkFirstWithTTL (onlineEnv noContent) (apiStore 1729999990000)
        booksRequest).outcome = .response (stampedApi 1729999990000) ∧
      (apiNetworkFirstWithTTL (onlineEnv noContent) (apiStore 1729999990000)
        booksRequest).caches = apiStore 1729999990000 := by
  decide

/-! ## Stamping a fetched response: the ok statuses that carry a body -/

theorem newResponse_of_ok (body : String) (status : Nat) (statusText : String)
    (headers : List (String × String))
    (hok : (decide (200 ≤ status) && decide (status ≤ 299)) = true)
    (hbody : nullBodyStatus status = false) :
    newResponse body status statusText headers =
      some { status := status, statusText := statusText, headers := headers, body := body } := by
  simp only [Bool.and_eq_true, decide_eq_true_eq] at hok
  unfold newResponse
  have h1 : ¬ (status < 200 ∨ 599 < status) := by omega
  simp only [h1, if_false, hbody, Bool.false_eq_true]

/-- For an ok response whose status is not a null body status,
`fetchAndStoreImage` returns the response with the header `sw-cached-at`
set to the decimal text of the clock and writes that copy under the
request. -/
theorem fetchAndStoreImage_ok (env : Env) (s : CacheStorage) (req : Request) (name : String)
    (R : Response) (hnet : env.net = some R) (hok : R.ok = true)
    (hbody : nullBodyStatus R.status = false) :
    fetchAndStoreImage env s req name =
      { outcome := .response
          { R with headers := Headers.set R.headers "sw-cached-at" (toString env.stampNow) }
        caches := s.put env.putOk name req.url
          { R with headers := Headers.set R.headers "sw-cached-at" (toString env.stampNow) }
        log := [.fetch req.url, .cachePut name req.url] } := by
  unfold fetchAndStoreImage
  simp only [hnet, hok, if_true, newResponse_of_ok _ _ _ _ hok hbody]

/-- For an ok response whose status is not a null body status,
`apiNetworkFirstWithTTL` returns the response with the header
`sw-fetched-at` set to the decimal text of the clock, writes that copy
under the request and trims the namespace, whatever the cache holds. -/
theorem apiNetworkFirstWithTTL_ok (env : Env) (s : CacheStorage) (req : Request)
    (R : Response) (hnet : env.net = some R) (hok : R.ok = true)
    (hbody : nullBodyStatus R.status = false) :
    apiNetworkFirstWithTTL env s req =
      { outcome := .response
          { R with headers := Headers.set R.headers "sw-fetched-at" (toString env.stampNow) }
        caches := trimCache
          ((s.open CACHE_NAMES.api).put env.putOk CACHE_NAMES.api req.url
            { R with headers := Headers.set R.headers "sw-fetched-at" (toString env.stampNow) })
          CACHE_NAMES.api MAX_API_ENTRIES
        log := [.cachesOpen CACHE_NAMES.api, .fetch req.url,
          .cachePut CACHE_NAMES.api req.url, .trim CACHE_NAMES.api MAX_API_ENTRIES] } := by
  unfold apiNetworkFirstWithTTL
  simp only [hnet, hok, if_true, newResponse_of_ok _ _ _ _ hok hbody]
  rfl

/-! ## The entry caps (C15) -/

theorem cacheOf_open (s : CacheStorage) (name n : String) :
    (s.open name).cacheOf n = s.cacheOf n := by
  by_cases h : n = name
  · rw [h]; exact cacheOf_open_self s name
  · unfold CacheStorage.open
    split
    · rfl
    · unfold CacheStorage.cacheOf
      rw [List.find?_append]
      cases hf : s.find? (fun e => e.1 == n) with
      | some e => simp
      | none =>
        have : (name == n) = false := by
          simp only [beq_eq_false_iff_ne, ne_eq]; exact fun hc => h hc.symm
        simp [List.find?_cons, this]

theorem cacheOf_of_not_mem (s : CacheStorage) (name : String) (h : name ∉ s.keys) :
    s.cacheOf name = [] := by
  unfold CacheStorage.cacheOf
  cases hf : s.find? (fun e => e.1 == name) with
  | none => rfl
  | some e =>
    exfalso
    apply h
    simp only [CacheStorage.keys, List.mem_map]
    exact ⟨e, List.mem_of_find?_eq_some hf, by simpa using List.find?_some hf⟩

theorem length_put_le (c : Cache) (url : String) (r : Response) :
    (Cache.put c url r).length ≤ c.length + 1 := by
  unfold Cache.put Cache.delete
  rw [List.length_append, List.length_singleton]
  exact Nat.add_le_add_right (List.length_filter_le _ _) 1

theorem cacheOf_put_other (s : CacheStorage) (ok : Bool) (name url : String) (r : Response)
    (n : String) (h : n ≠ name) : (s.put ok name url r).cacheOf n = s.cacheOf n := by
  unfold CacheStorage.put
  split
  · exact cacheOf_modify_other _ _ _ _ h
  · rfl

theorem length_cacheOf_put_le (s : CacheStorage) (ok : Bool) (name url : String)
    (r : Response) :
    ((s.put ok name url r).cacheOf name).length ≤ (s.cacheOf name).length + 1 := by
  unfold CacheStorage.put
  split
  · by_cases hmem : name ∈ s.keys
    · rw [cacheOf_modify_self _ _ _ hmem]
      exact length_put_le _ _ _
    · have h1 : name ∉ (s.modify name (fun c => Cache.put c url r)).keys := by
        rw [keys_modify]; exact hmem
      rw [cacheOf_of_not_mem _ _ h1]
      exact Nat.zero_le _
  · exact Nat.le_succ _

theorem length_filter_take_keys_le (c : Cache) (m : Nat) :
    (c.filter (fun e => decide (e.1 ∉ (Cache.keys c).take m))).length ≤ c.length - m := by
  induction c generalizing m with
  | nil => simp
  | cons e t ih =>
    cases m with
    | zero => exact List.length_filter_le _ _
    | succ m =>
      simp only [Cache.keys, List.map_cons, List.take_succ_cons, List.length_cons,
        Nat.add_sub_add_right]
      rw [List.filter_cons]
      simp only [List.mem_cons, true_or, not_true_eq_false, decide_False, Bool.false_eq_true,
        if_false]
      refine Nat.le_trans (List.Sublist.length_le ?_) (ih m)
      apply List.monotone_filter_right
      intro x hx
      simp only [decide_eq_true_eq, List.mem_cons, not_or] at hx ⊢
      exact hx.2

theorem length_cacheOf_trimCache_le (s : CacheStorage) (name : String) (K : Nat) :
    ((trimCache s name K).cacheOf name).length ≤ K := by
  unfold trimCache
  simp only [cacheOf_open_self, keys_length]
  split
  · rename_i hle
    rw [cacheOf_open_self]; exact hle
  · rw [foldl_modify_delete, cacheOf_modify_self _ _ _ (mem_keys_open s name),
      cacheOf_open_self, foldl_delete_eq_filter]
    have := length_filter_take_keys_le (s.cacheOf name) ((s.cacheOf name).length - K)
    omega

theorem length_delete_lt (c : Cache) (url : String) (e : Response)
    (h : Cache.matchKey c url = some e) : (Cache.delete c url).length + 1 ≤ c.length := by
  unfold Cache.matchKey at h
  cases hf : c.find? (fun x => x.1 == url) with
  | none => rw [hf] at h; exact absurd h (by simp)
  | some x =>
    have hx := List.mem_of_find?_eq_some hf
    have hk := List.find?_some hf
    unfold Cache.delete
    apply Nat.succ_le_of_lt
    rw [List.length_filter_lt_length_iff_exists]
    exact ⟨x, hx, by simpa using hk⟩

theorem fetchAndStoreImage_caches (env : Env) (s : CacheStorage) (req : Request)
    (name : String) :
    (fetchAndStoreImage env s req name).caches = s ∨
      ∃ r, (fetchAndStoreImage env s req name).caches = s.put env.putOk name req.url r := by
  unfold fetchAndStoreImage
  simp only
  split
  · split
    · split
      · exact Or.inr ⟨_, rfl⟩
      · split <;> exact Or.inl rfl
    · exact Or.inl rfl
  · split <;> exact Or.inl rfl

theorem fetchAndStoreImage_other (env : Env) (s : CacheStorage) (req : Request)
    (name n : String) (h : n ≠ name) :
    (fetchAndStoreImage env s req name).caches.cacheOf n = s.cacheOf n := by
  rcases fetchAndStoreImage_caches env s req name with h1 | ⟨r, h1⟩
  · rw [h1]
  · rw [h1, cacheOf_put_other _ _ _ _ _ _ h]

theorem fetchAndStoreImage_length (env : Env) (s : CacheStorage) (req : Request)
    (name : String) :
    ((fetchAndStoreImage env s req name).caches.cacheOf name).length ≤
      (s.cacheOf name).length + 1 := by
  rcases fetchAndStoreImage_caches env s req name with h1 | ⟨r, h1⟩
  · rw [h1]; exact Nat.le_succ _
  · rw [h1]; exact length_cacheOf_put_le _ _ _ _ _

theorem imageCache_caches (env : Env) (s : CacheStorage) (req : Request) :
    ((imageCache env s req).caches.cacheOf CACHE_NAMES.images).length ≤
        max (s.cacheOf CACHE_NAMES.images).length MAX_IMAGE_ENTRIES ∧
      ∀ n, n ≠ CACHE_NAMES.images → (imageCache env s req).caches.cacheOf n = s.cacheOf n := by
  unfold imageCache
  simp only
  cases hc : ((s.open CACHE_NAMES.images).cacheOf CACHE_NAMES.images).matchKey req.url with
  | none =>
    simp only
    refine ⟨?_, ?_⟩
    · exact Nat.le_trans (length_cacheOf_trimCache_le _ _ _) (Nat.le_max_right _ _)
    · intro n hn
      rw [cacheOf_trimCache_other _ _ _ _ hn, fetchAndStoreImage_other _ _ _ _ _ hn, cacheOf_open]
  | some cached =>
    simp only
    split
    · simp only
      refine ⟨?_, ?_⟩
      · have h1 := fetchAndStoreImage_length env
          ((s.open CACHE_NAMES.images).modify CACHE_NAMES.images
            (fun c => Cache.delete c req.url)) req CACHE_NAMES.images
        rw [cacheOf_modify_self _ _ _ (mem_keys_open s _)] at h1
        have h2 := length_delete_lt _ _ _ hc
        rw [cacheOf_open_self] at h1 h2
        have := Nat.le_max_left (s.cacheOf CACHE_NAMES.images).length MAX_IMAGE_ENTRIES
        omega
      · intro n hn
        rw [fetchAndStoreImage_other _ _ _ _ _ hn, cacheOf_modify_other _ _ _ _ hn, cacheOf_open]
    · simp only
      refine ⟨?_, ?_⟩
      · rw [cacheOf_open]; exact Nat.le_max_left _ _
      · intro n _; rw [cacheOf_open]

theorem apiNetworkFirstWithTTL_caches (env : Env) (s : CacheStorage) (req : Request) :
    ((apiNetworkFirstWithTTL env s req).caches.cacheOf CACHE_NAMES.api).length ≤
        max (s.cacheOf CACHE_NAMES.api).length MAX_API_ENTRIES ∧
      ∀ n, n ≠ CACHE_NAMES.api →
        (apiNetworkFirstWithTTL env s req).caches.cacheOf n = s.cacheOf n := by
  have hcaught : ∀ r : Result, r.caches = s.open CACHE_NAMES.api →
      (r.caches.cacheOf CACHE_NAMES.api).length ≤
          max (s.cacheOf CACHE_NAMES.api).length MAX_API_ENTRIES ∧
        ∀ n, n ≠ CACHE_NAMES.api → r.caches.cacheOf n = s.cacheOf n := by
    intro r hr
    rw [hr]
    exact ⟨by rw [cacheOf_open]; exact Nat.le_max_left _ _, fun n _ => cacheOf_open _ _ _⟩
  unfold apiNetworkFirstWithTTL
  simp only
  split
  · split
    · split
      · simp only
        refine ⟨Nat.le_trans (length_cacheOf_trimCache_le _ _ _) (Nat.le_max_right _ _), ?_⟩
        intro n hn
        rw [cacheOf_trimCache_other _ _ _ _ hn, cacheOf_put_other _ _ _ _ _ _ hn, cacheOf_open]
      · apply hcaught; split <;> rfl
    · exact hcaught _ rfl
  · apply hcaught; split <;> rfl

theorem networkFirst_other (env : Env) (s : CacheStorage) (req : Request)
    (name : String) (timeoutMs : Nat) (n : String) (hn : n ≠ name) :
    (networkFirst env s req name timeoutMs).caches.cacheOf n = s.cacheOf n := by
  unfold networkFirst
  simp only
  split
  · split
    · simp only; rw [cacheOf_put_other _ _ _ _ _ _ hn, cacheOf_open]
    · simp only; rw [cacheOf_open]
  · split <;> simp only <;> rw [cacheOf_open]

theorem staleWhileRevalidate_other (env : Env) (s : CacheStorage) (req : Request)
    (name n : String) (hn : n ≠ name) :
    (staleWhileRevalidate env s req name).caches.cacheOf n = s.cacheOf n := by
  rw [swr_caches]
  split
  · split
    · rw [cacheOf_put_other _ _ _ _ _ _ hn, cacheOf_open]
    · rw [cacheOf_open]
  · rw [cacheOf_open]

theorem handleNavigation_other (env : Env) (s : CacheStorage) (req : Request) (n : String)
    (hn : n ≠ CACHE_NAMES.pages) :
    (handleNavigation env s req).caches.cacheOf n = s.cacheOf n := by
  have hcaught : ∀ (s2 : CacheStorage) (log : List Effect),
      (navigationCaught s2 req log).caches = s2 := by
    intro s2 log
    unfold navigationCaught
    split <;> rfl
  unfold handleNavigation
  split
  · rw [hcaught]
  · simp only; rw [cacheOf_put_other _ _ _ _ _ _ hn, cacheOf_open]
  · simp only
    split
    · rw [hcaught]; exact networkFirst_other _ _ _ _ _ _ hn
    · exact networkFirst_other _ _ _ _ _ _ hn

theorem handlePartial_other (env : Env) (s : CacheStorage) (req : Request) (n : String)
    (hn : n ≠ CACHE_NAMES.assets) :
    (handlePartial env s req).caches.cacheOf n = s.cacheOf n := by
  unfold handlePartial
  simp only
  split
  · split <;> exact networkFirst_other _ _ _ _ _ _ hn
  · exact networkFirst_other _ _ _ _ _ _ hn

theorem handleGemini_caches (env : Env) (s : CacheStorage) (req : Request) :
    (handleGemini env s req).caches = s := by
  unfold handleGemini
  split <;> rfl

theorem handleDefault_caches (env : Env) (s : CacheStorage) (req : Request) :
    (handleDefault env s req).caches = s := by
  unfold handleDefault
  split
  · rfl
  · split <;> rfl

/-- C15: when the images namespace holds at most 120 entries and the API
namespace at most 80 before a fetch event, they still do after the
handler and its trim have run (each put applied before the trim that
follows it), for every request, every network outcome and every branch,
the expired-image path included. -/
theorem C15_entry_caps_preserved (env : Env) (s : CacheStorage) (req : Request)
    (hcap : withinCaps s) : withinCaps (storeAfterFetch env s req) := by
  unfold storeAfterFetch onFetch
  split
  · rename_i h hh
    split at hh
    · exact absurd hh (by simp)
    · simp only [Option.some.injEq] at hh
      rw [← hh]
      simp only
      obtain ⟨himg, hapi⟩ := hcap
      have keep : ∀ r : Result,
          r.caches.cacheOf CACHE_NAMES.images = s.cacheOf CACHE_NAMES.images →
          r.caches.cacheOf CACHE_NAMES.api = s.cacheOf CACHE_NAMES.api →
          withinCaps r.caches := by
        intro r h1 h2
        unfold withinCaps
        rw [h1, h2]
        exact ⟨himg, hapi⟩
      cases classify env.origin req with
      | Navigation =>
        exact keep _ (handleNavigation_other _ _ _ _ (by decide))
          (handleNavigation_other _ _ _ _ (by decide))
      | Partial =>
        exact keep _ (handlePartial_other _ _ _ _ (by decide))
          (handlePartial_other _ _ _ _ (by decide))
      | StaticAsset =>
        exact keep _ (staleWhileRevalidate_other _ _ _ _ _ (by decide))
          (staleWhileRevalidate_other _ _ _ _ _ (by decide))
      | Image =>
        obtain ⟨h1, h2⟩ := imageCache_caches env s req
        refine ⟨?_, ?_⟩
        · exact Nat.le_trans h1 (Nat.max_le.mpr ⟨himg, Nat.le_refl _⟩)
        · show ((imageCache env s req).caches.cacheOf CACHE_NAMES.api).length ≤
            MAX_API_ENTRIES
          rw [h2 _ (by decide)]; exact hapi
      | SensitiveBypass =>
        have hr : (runStrategy .SensitiveBypass env s req).caches = s :=
          handleGemini_caches env s req
        exact keep _ (by rw [hr]) (by rw [hr])
      | ExternalAPI =>
        obtain ⟨h1, h2⟩ := apiNetworkFirstWithTTL_caches env s req
        refine ⟨?_, ?_⟩
        · show ((apiNetworkFirstWithTTL env s req).caches.cacheOf CACHE_NAMES.images).length ≤
            MAX_IMAGE_ENTRIES
          rw [h2 _ (by decide)]; exact himg
        · exact Nat.le_trans h1 (Nat.max_le.mpr ⟨hapi, Nat.le_refl _⟩)
      | Default =>
        have hr : (runStrategy .Default env s req).caches = s :=
          handleDefault_caches env s req
        exact keep _ (by rw [hr]) (by rw [hr])
  · exact hcap

theorem C15_witness :
    withinCaps (storeAfterFetch (onlineEnv (pageResponse "img")) (imageStore 1) coverRequest) :=
  C15_entry_caps_preserved (onlineEnv (pageResponse "img")) (imageStore 1) coverRequest
    ⟨by decide, by decide⟩

/-! ## The sweep of stale namespaces (C16, C17) -/

theorem foldl_storage_delete (ks : List String) (s : CacheStorage) :
    ks.foldl (fun acc k => acc.delete k) s = s.filter (fun e => decide (e.1 ∉ ks)) := by
  induction ks generalizing s with
  | nil => simp
  | cons k t ih =>
    simp only [List.foldl_cons]
    rw [ih]
    unfold CacheStorage.delete
    rw [List.filter_filter]
    apply List.filter_congr
    intro e _
    by_cases h1 : e.1 = k <;> by_cases h2 : e.1 ∈ t <;> simp [h1, h2]

/-- The sweep keeps exactly the namespaces whose name does not start with
`bse-` or is a value of the table, in their order and with their entries. -/
theorem deleteStale_eq_filter (names : CacheNames) (s : CacheStorage) :
    deleteStale names s =
      s.filter (fun e => !(startsWith e.1 "bse-" && !names.values.contains e.1)) := by
  unfold deleteStale
  simp only
  rw [foldl_storage_delete]
  apply List.filter_congr
  intro e he
  have hk : e.1 ∈ s.keys := List.mem_map_of_mem (fun e => e.1) he
  by_cases hp : (startsWith e.1 "bse-" && !names.values.contains e.1) = true
  · have : e.1 ∈ s.keys.filter
        (fun k => startsWith k "bse-" && !names.values.contains k) :=
      List.mem_filter.mpr ⟨hk, hp⟩
    have hd : decide (e.1 ∉ s.keys.filter
        (fun k => startsWith k "bse-" && !names.values.contains k)) = false := by
      simp only [this, not_true_eq_false, decide_False]
    rw [hd, hp]; rfl
  · have : e.1 ∉ s.keys.filter
        (fun k => startsWith k "bse-" && !names.values.contains k) :=
      fun hc => hp (List.mem_filter.mp hc).2
    have hd : decide (e.1 ∉ s.keys.filter
        (fun k => startsWith k "bse-" && !names.values.contains k)) = true := by
      simp only [this, not_false_eq_true, decide_True]
    simp only [Bool.not_eq_true] at hp
    rw [hd, hp]; rfl

theorem cacheOf_filter_name (s : CacheStorage) (g : String → Bool) (name : String)
    (hg : g name = true) :
    CacheStorage.cacheOf (s.filter (fun e => g e.1)) name = s.cacheOf name := by
  induction s with
  | nil => rfl
  | cons e t ih =>
    unfold CacheStorage.cacheOf at ih ⊢
    rw [List.filter_cons]
    by_cases he : e.1 = name
    · have h1 : g e.1 = true := by rw [he]; exact hg
      have h2 : (e.1 == name) = true := by simp [he]
      simp only [h1, if_true, List.find?_cons, h2]
    · have h2 : (e.1 == name) = false := by simp [he]
      by_cases h1 : g e.1 = true
      · simp only [h1, if_true, List.find?_cons, h2]
        exact ih
      · simp only [h1, if_false, List.find?_cons, h2]
        exact ih

theorem deleteStale_spec (names : CacheNames) (s : CacheStorage) :
    (∀ e ∈ s, startsWith e.1 "bse-" = true → e.1 ∉ names.values →
        e.1 ∉ (deleteStale names s).keys) ∧
      (∀ n ∈ (deleteStale names s).keys, startsWith n "bse-" = true → n ∈ names.values) ∧
      (∀ e ∈ s, (startsWith e.1 "bse-" = false ∨ e.1 ∈ names.values) →
        e ∈ deleteStale names s) ∧
      (∀ n, (startsWith n "bse-" = false ∨ n ∈ names.values) →
        (deleteStale names s).cacheOf n = s.cacheOf n) := by
  have hkeep : ∀ n, (startsWith n "bse-" && !names.values.contains n) = true →
      n ∉ (deleteStale names s).keys := by
    intro n hn hmem
    rw [deleteStale_eq_filter] at hmem
    simp only [CacheStorage.keys, List.mem_map] at hmem
    obtain ⟨e, he, hen⟩ := hmem
    have := (List.mem_filter.mp he).2
    rw [hen, hn] at this
    exact absurd this (by simp)
  refine ⟨?_, ?_, ?_, ?_⟩
  · intro e _ hb hv
    apply hkeep
    simp [hb, hv]
  · intro n hn hb
    by_contra hv
    exact hkeep n (by simp [hb, hv]) hn
  · intro e he h
    rw [deleteStale_eq_filter]
    apply List.mem_filter.mpr
    refine ⟨he, ?_⟩
    rcases h with h | h
    · simp [h]
    · simp [h]
  · intro n h
    rw [deleteStale_eq_filter]
    apply cacheOf_filter_name s
      (fun k => !(startsWith k "bse-" && !names.values.contains k)) n
    rcases h with h | h
    · simp [h]
    · simp [h]

/-- C16: after activation, every namespace whose name starts with `bse-`
and is none of the five current names is gone, and every namespace that
is one of the five current names (among them `bse-img` and
`bse-api-runtime`) or whose name does not start with `bse-` is still
there with its entries as they were. -/
theorem C16_activation_sweep (preload : Bool) (s : CacheStorage) :
    CACHE_NAMES.values =
        ["bse-shell-v7", "bse-pages-v7", "bse-assets-v7", "bse-img", "bse-api-runtime"] ∧
      (∀ e ∈ s, startsWith e.1 "bse-" = true → e.1 ∉ CACHE_NAMES.values →
        e.1 ∉ (onActivate preload s).caches.keys) ∧
      (∀ e ∈ s, (startsWith e.1 "bse-" = false ∨ e.1 ∈ CACHE_NAMES.values) →
        e ∈ (onActivate preload s).caches) ∧
      (∀ n, (startsWith n "bse-" = false ∨ n ∈ CACHE_NAMES.values) →
        (onActivate preload s).caches.cacheOf n = s.cacheOf n) ∧
      (onActivate preload s).caches.Sublist s := by
  obtain ⟨h1, _, h3, h4⟩ := deleteStale_spec CACHE_NAMES s
  refine ⟨by decide, h1, h3, h4, ?_⟩
  show (deleteStale CACHE_NAMES s).Sublist s
  rw [deleteStale_eq_filter]
  exact List.filter_sublist _

/-- C17, as the claim states it, fails: a namespace whose name does not
start with `bse-` is not in the valid set and is still there after
CLEAR_CACHES. -/
theorem C17_counterexample :
    "workbox-precache" ∉ CACHE_NAMES.values ∧
      "workbox-precache" ∈ mixedStore.keys ∧
      "workbox-precache" ∈
        (onMessage true (.object (some "CLEAR_CACHES")) mixedStore).caches.keys := by
  decide

/-- C17 (amended): handling `{type: CLEAR_CACHES}` deletes every namespace
whose name starts with `bse-` and is not in the valid set, so that
afterwards every namespace whose name starts with `bse-` is in the valid
set; the namespaces of the valid set, and those whose name does not start
with `bse-`, are left with their entries; then `{type: CLEAR_DONE}` is
posted to the source of the message, when it has one. -/
theorem C17_clear_caches (hasSource : Bool) (s : CacheStorage) :
    (∀ e ∈ s, startsWith e.1 "bse-" = true → e.1 ∉ CACHE_NAMES.values →
        e.1 ∉ (onMessage hasSource (.object (some "CLEAR_CACHES")) s).caches.keys) ∧
      (∀ n ∈ (onMessage hasSource (.object (some "CLEAR_CACHES")) s).caches.keys,
        startsWith n "bse-" = true → n ∈ CACHE_NAMES.values) ∧
      (∀ e ∈ s, (startsWith e.1 "bse-" = false ∨ e.1 ∈ CACHE_NAMES.values) →
        e ∈ (onMessage hasSource (.object (some "CLEAR_CACHES")) s).caches) ∧
      (∀ n, (startsWith n "bse-" = false ∨ n ∈ CACHE_NAMES.values) →
        (onMessage hasSource (.object (some "CLEAR_CACHES")) s).caches.cacheOf n =
          s.cacheOf n) ∧
      (onMessage hasSource (.object (some "CLEAR_CACHES")) s).reply =
        (if hasSource then some Reply.clearDone else none) := by
  have hm : onMessage hasSource (.object (some "CLEAR_CACHES")) s =
      { reply := if hasSource then some .clearDone else none
        skipWaiting := false, caches := deleteStale CACHE_NAMES s } := by
    simp [onMessage]
  rw [hm]
  obtain ⟨h1, h2, h3, h4⟩ := deleteStale_spec CACHE_NAMES s
  exact ⟨h1, h2, h3, h4, rfl⟩

/-! ## Install (C18) -/

theorem matchKey_put_other (c : Cache) (url : String) (r : Response) (k : String)
    (h : k ≠ url) : Cache.matchKey (Cache.put c url r) k = Cache.matchKey c k := by
  have hb : (url == k) = false := by
    simp only [beq_eq_false_iff_ne, ne_eq]; exact fun hc => h hc.symm
  induction c with
  | nil => simp [Cache.put, Cache.delete, Cache.matchKey, List.find?_cons, hb]
  | cons e t ih =>
    unfold Cache.put Cache.delete Cache.matchKey at ih ⊢
    rw [List.filter_cons]
    by_cases he : e.1 = url
    · have h1 : (e.1 == url) = true := by simp [he]
      have h2 : (e.1 == k) = false := by rw [he]; exact hb
      simp only [h1, Bool.not_true, Bool.false_eq_true, if_false, List.find?_cons, h2]
      exact ih
    · have h1 : (e.1 == url) = false := by simp [he]
      simp only [h1, Bool.not_false, if_true, List.cons_append, List.find?_cons]
      cases (e.1 == k)
      · exact ih
      · rfl

theorem mem_keys_storeFetched (env : InstallEnv) (name : String) (s : CacheStorage)
    (k : String) (h : name ∈ s.keys) : name ∈ (storeFetched env name s k).keys := by
  unfold storeFetched
  split
  · unfold CacheStorage.put
    simp only [if_true]
    rw [keys_modify]; exact h
  · exact h

theorem storeFetched_matchKey (env : InstallEnv) (name : String) (s : CacheStorage)
    (k2 k : String) (r : Response) (hmem : name ∈ s.keys) (hk : env.fetchOf k = some r)
    (h : k = k2 ∨ Cache.matchKey (s.cacheOf name) k = some r) :
    Cache.matchKey ((storeFetched env name s k2).cacheOf name) k = some r := by
  unfold storeFetched
  by_cases hkk : k = k2
  · rw [← hkk, hk]
    simp only [CacheStorage.put, if_true]
    rw [cacheOf_modify_self _ _ _ hmem]
    exact matchKey_put_self _ _ _
  · have hold : Cache.matchKey (s.cacheOf name) k = some r := by
      rcases h with h | h
      · exact absurd h hkk
      · exact h
    split
    · simp only [CacheStorage.put, if_true]
      rw [cacheOf_modify_self _ _ _ hmem, matchKey_put_other _ _ _ _ hkk]
      exact hold
    · exact hold

theorem foldl_storeFetched_keeps (env : InstallEnv) (name : String) (keys : List String) :
    ∀ (s : CacheStorage) (k : String) (r : Response), name ∈ s.keys →
      env.fetchOf k = some r → Cache.matchKey (s.cacheOf name) k = some r →
      Cache.matchKey ((keys.foldl (fun acc k => storeFetched env name acc k) s).cacheOf name) k =
        some r := by
  induction keys with
  | nil => intro s k r _ _ h; exact h
  | cons k2 t ih =>
    intro s k r hmem hk h
    rw [List.foldl_cons]
    exact ih _ k r (mem_keys_storeFetched env name s k2 hmem) hk
      (storeFetched_matchKey env name s k2 k r hmem hk (Or.inr h))

theorem foldl_storeFetched_holds (env : InstallEnv) (name : String) (keys : List String) :
    ∀ (s : CacheStorage) (k : String) (r : Response), name ∈ s.keys → k ∈ keys →
      env.fetchOf k = some r →
      Cache.matchKey ((keys.foldl (fun acc k => storeFetched env name acc k) s).cacheOf name) k =
        some r := by
  induction keys with
  | nil => intro s k r _ hk _; exact absurd hk (List.not_mem_nil _)
  | cons k2 t ih =>
    intro s k r hmem hk hf
    rw [List.foldl_cons]
    by_cases hkk : k = k2
    · exact foldl_storeFetched_keeps env name t _ k r (mem_keys_storeFetched env name s k2 hmem)
        hf (storeFetched_matchKey env name s k2 k r hmem hf (Or.inl hkk))
    · rcases List.mem_cons.mp hk with h | h
      · exact absurd h hkk
      · exact ih _ k r (mem_keys_storeFetched env name s k2 hmem) h hf

theorem foldl_storeFetched_other (env : InstallEnv) (name : String) (keys : List String)
    (n : String) (hn : n ≠ name) :
    ∀ s : CacheStorage,
      (keys.foldl (fun acc k => storeFetched env name acc k) s).cacheOf n = s.cacheOf n := by
  induction keys with
  | nil => intro s; rfl
  | cons k t ih =>
    intro s
    rw [List.foldl_cons, ih]
    unfold storeFetched
    split
    · exact cacheOf_put_other _ _ _ _ _ _ hn
    · rfl

theorem addAll_isSome (env : InstallEnv) (s : CacheStorage) (name : String)
    (urls : List String) :
    (addAll env s name urls).isSome = true ↔
      (∀ u ∈ urls, precacheable env (env.origin ++ u) = true) ∧ env.putOk = true := by
  unfold addAll
  simp only
  constructor
  · intro h
    split at h
    · rename_i hall
      rw [Bool.and_eq_true, List.all_eq_true] at hall
      exact ⟨fun u hu => hall.1 _ (List.mem_map_of_mem _ hu), hall.2⟩
    · exact absurd h (by simp)
  · rintro ⟨h, hput⟩
    have hall : ((urls.map (fun u => env.origin ++ u)).all (fun k => precacheable env k) &&
        env.putOk) = true := by
      rw [Bool.and_eq_true, List.all_eq_true]
      refine ⟨?_, hput⟩
      intro k hk
      obtain ⟨u, hu, huk⟩ := List.mem_map.mp hk
      rw [← huk]; exact h u hu
    rw [if_pos hall]; rfl

/-- A response with `Vary: *` is not acceptable to `cache.addAll`, whatever
its status. -/
theorem precacheable_variesOnAll (origin url : String) (putOk : Bool) :
    precacheable { origin := origin, fetchOf := fun _ => some variesOnAll, putOk := putOk } url =
      false := by
  show (variesOnAll.ok && !(variesOnAll.status == 206) && !hasVaryStar variesOnAll) = false
  decide

/-- C18, as the claim states it, fails: every URL of the manifest is
fetched with an acceptable response, yet the store refuses the writes (its
quota is exhausted): `cache.addAll` rejects, the install is not fulfilled
and `skipWaiting` is not called. -/
theorem C18_counterexample :
    (∀ u ∈ PRECACHE_URLS, precacheable quotaExhausted (quotaExhausted.origin ++ u) = true) ∧
      (onInstall quotaExhausted []).fulfilled = false ∧
      (onInstall quotaExhausted []).skipWaiting = false := by
  decide

/-- C18 (amended): the manifest has 22 URLs; the install is fulfilled
exactly when every manifest URL is fetched with a response that
`cache.addAll` accepts (an ok status other than 206, no `Vary: *`) and
the store accepts the writes; then `skipWaiting` is called, the shell
namespace holds for every manifest URL what its fetch gave, and the other
namespaces are as they were; when one URL fails, or the store refuses the
writes, the install is not fulfilled, `skipWaiting` is not called and
every namespace has the entries it had (the shell namespace is at most
created, empty). -/
theorem C18_install_all_or_nothing (env : InstallEnv) (s : CacheStorage) :
    PRECACHE_URLS.length = 22 ∧
    ((onInstall env s).fulfilled = true ↔
      (∀ u ∈ PRECACHE_URLS, precacheable env (env.origin ++ u) = true) ∧
        env.putOk = true) ∧
    ((∀ u ∈ PRECACHE_URLS, precacheable env (env.origin ++ u) = true) → env.putOk = true →
      (onInstall env s).skipWaiting = true ∧
      (∀ u ∈ PRECACHE_URLS, ∃ r, env.fetchOf (env.origin ++ u) = some r ∧
        ((onInstall env s).caches.cacheOf CACHE_NAMES.shell).matchKey (env.origin ++ u) =
          some r) ∧
      ∀ n, n ≠ CACHE_NAMES.shell → (onInstall env s).caches.cacheOf n = s.cacheOf n) ∧
    (((∃ u ∈ PRECACHE_URLS, precacheable env (env.origin ++ u) = false) ∨
        env.putOk = false) →
      (onInstall env s).fulfilled = false ∧ (onInstall env s).skipWaiting = false ∧
      ∀ n, (onInstall env s).caches.cacheOf n = s.cacheOf n) := by
  have hiff := addAll_isSome env (s.open CACHE_NAMES.shell) CACHE_NAMES.shell PRECACHE_URLS
  refine ⟨rfl, ?_, ?_, ?_⟩
  · rw [← hiff]
    unfold onInstall installWith
    simp only
    split <;> simp [*]
  · intro hall hput
    have hsome := hiff.mpr ⟨hall, hput⟩
    have hval : addAll env (s.open CACHE_NAMES.shell) CACHE_NAMES.shell PRECACHE_URLS =
        some ((PRECACHE_URLS.map (fun u => env.origin ++ u)).foldl
          (fun acc k => storeFetched env CACHE_NAMES.shell acc k)
          (s.open CACHE_NAMES.shell)) := by
      unfold addAll at hsome ⊢
      simp only at hsome ⊢
      split
      · rfl
      · rename_i hno; rw [if_neg hno] at hsome; exact absurd hsome (by simp)
    have hres : onInstall env s =
        { fulfilled := true, skipWaiting := true
          caches := (PRECACHE_URLS.map (fun u => env.origin ++ u)).foldl
            (fun acc k => storeFetched env CACHE_NAMES.shell acc k)
            (s.open CACHE_NAMES.shell) } := by
      unfold onInstall installWith
      simp only [hval]
    rw [hres]
    refine ⟨rfl, ?_, ?_⟩
    · intro u hu
      have hp := hall u hu
      unfold precacheable at hp
      cases hf : env.fetchOf (env.origin ++ u) with
      | none => rw [hf] at hp; exact absurd hp (by simp)
      | some r =>
        exact ⟨r, rfl, foldl_storeFetched_holds env CACHE_NAMES.shell _ _ _ r
          (mem_keys_open s _) (List.mem_map_of_mem _ hu) hf⟩
    · intro n hn
      show CacheStorage.cacheOf (List.foldl _ _ _) n = _
      rw [foldl_storeFetched_other env CACHE_NAMES.shell _ n hn, cacheOf_open]
  · intro hbad
    have hnone : addAll env (s.open CACHE_NAMES.shell) CACHE_NAMES.shell PRECACHE_URLS = none := by
      cases hadd : addAll env (s.open CACHE_NAMES.shell) CACHE_NAMES.shell PRECACHE_URLS with
      | none => rfl
      | some s2 =>
        have hok := hiff.mp (by rw [hadd]; rfl)
        rcases hbad with ⟨u, hu, hu2⟩ | hput
        · have := hok.1 u hu
          rw [hu2] at this
          exact absurd this (by simp)
        · rw [hput] at hok
          exact absurd hok.2 (by simp)
    have hres : onInstall env s =
        { fulfilled := false, skipWaiting := false, caches := s.open CACHE_NAMES.shell } := by
      unfold onInstall installWith
      simp only [hnone]
    rw [hres]
    exact ⟨rfl, rfl, fun n => cacheOf_open _ _ _⟩

theorem C18_witness :
    (onInstall allReachable []).fulfilled = true ∧
      (onInstall allReachable []).skipWaiting = true :=
  ⟨(C18_install_all_or_nothing allReachable []).2.1.mpr ⟨fun _ _ => rfl, rfl⟩,
   ((C18_install_all_or_nothing allReachable []).2.2.1 (fun _ _ => rfl) rfl).1⟩

/-! ## Names of namespaces across versions (C19) -/

theorem append_ne_of_diverging (a b x y : String)
    (h1 : a.toList.isPrefixOf b.toList = false) (h2 : b.toList.isPrefixOf a.toList = false) :
    a ++ x ≠ b ++ y := by
  intro h
  have hd : a.data ++ x.data = b.data ++ y.data := by
    have := congrArg String.data h
    simpa only [String.data_append] using this
  have p1 : a.data <+: a.data ++ x.data := List.prefix_append _ _
  have p2 : b.data <+: a.data ++ x.data := by rw [hd]; exact List.prefix_append _ _
  rcases List.prefix_or_prefix_of_prefix p1 p2 with hp | hp
  · have := List.isPrefixOf_iff_prefix.mpr hp
    exact absurd (show a.toList.isPrefixOf b.toList = true from this) (by rw [h1]; simp)
  · have := List.isPrefixOf_iff_prefix.mpr hp
    exact absurd (show b.toList.isPrefixOf a.toList = true from this) (by rw [h2]; simp)

theorem ne_of_diverging (a b x : String)
    (h1 : a.toList.isPrefixOf b.toList = false) (h2 : b.toList.isPrefixOf a.toList = false) :
    a ++ x ≠ b := by
  have := append_ne_of_diverging a b x "" h1 h2
  rwa [String.append_empty] at this

theorem append_left_cancel (a x y : String) (h : a ++ x = a ++ y) : x = y := by
  have hd : a.data ++ x.data = a.data ++ y.data := by
    have := congrArg String.data h
    simpa only [String.data_append] using this
  exact String.ext (List.append_cancel_left hd)

theorem startsWith_append (a x : String) : startsWith (a ++ x) a = true := by
  unfold startsWith
  exact List.isPrefixOf_iff_prefix.mpr ⟨x.data, (String.data_append a x).symm⟩

theorem versioned_not_valid (V V2 : String) (hne : V ≠ V2) :
    ∀ n ∈ [(cacheNamesFor V).shell, (cacheNamesFor V).pages, (cacheNamesFor V).assets],
      n ∉ (cacheNamesFor V2).values := by
  have hs : ∀ a : String, a ++ V ≠ a ++ V2 := fun a h => hne (append_left_cancel a V V2 h)
  intro n hn
  simp only [cacheNamesFor, List.mem_cons, List.mem_singleton, List.not_mem_nil,
    or_false] at hn
  simp only [CacheNames.values, cacheNamesFor, List.mem_cons, List.mem_singleton,
    List.not_mem_nil, or_false, not_or]
  rcases hn with hn | hn | hn <;> rw [hn]
  · exact ⟨hs _, append_ne_of_diverging _ _ _ _ (by decide) (by decide),
      append_ne_of_diverging _ _ _ _ (by decide) (by decide),
      ne_of_diverging _ _ _ (by decide) (by decide),
      ne_of_diverging _ _ _ (by decide) (by decide)⟩
  · exact ⟨append_ne_of_diverging _ _ _ _ (by decide) (by decide), hs _,
      append_ne_of_diverging _ _ _ _ (by decide) (by decide),
      ne_of_diverging _ _ _ (by decide) (by decide),
      ne_of_diverging _ _ _ (by decide) (by decide)⟩
  · exact ⟨append_ne_of_diverging _ _ _ _ (by decide) (by decide),
      append_ne_of_diverging _ _ _ _ (by decide) (by decide), hs _,
      ne_of_diverging _ _ _ (by decide) (by decide),
      ne_of_diverging _ _ _ (by decide) (by decide)⟩

/-- C19: for two distinct version tags `V` and `V2`, the shell, pages and
assets namespaces of `V` have names that are none of the names of `V2`;
after an entry is written under the pages namespace of `V` and `V2`
activates, the pages namespace of `V` does not exist any more, a read of
it finds nothing, and the pages namespace of `V2` holds exactly what it
held before the write. -/
theorem C19_namespace_isolation (V V2 : String) (hne : V ≠ V2) (preload : Bool)
    (s : CacheStorage) (url : String) (r : Response) :
    cacheNamesFor SW_VERSION = CACHE_NAMES ∧
    (cacheNamesFor V).shell ≠ (cacheNamesFor V2).shell ∧
    (cacheNamesFor V).pages ≠ (cacheNamesFor V2).pages ∧
    (cacheNamesFor V).assets ≠ (cacheNamesFor V2).assets ∧
    (∀ n ∈ [(cacheNamesFor V).shell, (cacheNamesFor V).pages, (cacheNamesFor V).assets],
      n ∉ (cacheNamesFor V2).values) ∧
    (cacheNamesFor V).pages ∉
      (activateWith (cacheNamesFor V2) preload
        ((s.open (cacheNamesFor V).pages).put true (cacheNamesFor V).pages url r)).caches.keys ∧
    ((activateWith (cacheNamesFor V2) preload
        ((s.open (cacheNamesFor V).pages).put true (cacheNamesFor V).pages url r)).caches.cacheOf
      (cacheNamesFor V).pages).matchKey url = none ∧
    (activateWith (cacheNamesFor V2) preload
        ((s.open (cacheNamesFor V).pages).put true (cacheNamesFor V).pages url r)).caches.cacheOf
      (cacheNamesFor V2).pages = s.cacheOf (cacheNamesFor V2).pages := by
  have hval := versioned_not_valid V V2 hne
  have hshell := hval (cacheNamesFor V).shell (by simp)
  have hpages := hval (cacheNamesFor V).pages (by simp)
  have hassets := hval (cacheNamesFor V).assets (by simp)
  have hpne : (cacheNamesFor V).pages ≠ (cacheNamesFor V2).pages :=
    fun h => hpages (by rw [h]; simp [CacheNames.values])
  obtain ⟨_, h2, _, h4⟩ := deleteStale_spec (cacheNamesFor V2)
    ((s.open (cacheNamesFor V).pages).put true (cacheNamesFor V).pages url r)
  have hgone : (cacheNamesFor V).pages ∉
      (activateWith (cacheNamesFor V2) preload
        ((s.open (cacheNamesFor V).pages).put true (cacheNamesFor V).pages url r)).caches.keys :=
    fun hmem => hpages (h2 _ hmem (by
      show startsWith ("bse-pages-" ++ V) "bse-" = true
      exact List.isPrefixOf_iff_prefix.mpr ⟨"pages-".data ++ V.data, rfl⟩))
  refine ⟨rfl, fun h => hshell (by rw [h]; simp [CacheNames.values]), hpne,
    fun h => hassets (by rw [h]; simp [CacheNames.values]), hval, hgone, ?_, ?_⟩
  · rw [cacheOf_of_not_mem _ _ hgone]; rfl
  · show (deleteStale _ _).cacheOf _ = _
    rw [h4 _ (Or.inr (by simp [CacheNames.values])),
      cacheOf_put_other _ _ _ _ _ _ (Ne.symm hpne), cacheOf_open]

theorem C19_witness :
    ((activateWith (cacheNamesFor "v7") true
        ((CacheStorage.open [] (cacheNamesFor "v6").pages).put true (cacheNamesFor "v6").pages
          (sampleOrigin ++ "/index.html") (pageResponse "old home"))).caches.cacheOf
      (cacheNamesFor "v6").pages).matchKey (sampleOrigin ++ "/index.html") = none :=
  (C19_namespace_isolation "v6" "v7" (by decide) true [] (sampleOrigin ++ "/index.html")
    (pageResponse "old home")).2.2.2.2.2.2.1

/-! ## The namespace of the partials (C20) -/

theorem putTargets_append (a b : List Effect) :
    putTargets (a ++ b) = putTargets a ++ putTargets b := by
  induction a with
  | nil => rfl
  | cons e t ih => cases e <;> simp [putTargets, ih]

theorem putTargets_networkFirst (env : Env) (s : CacheStorage) (req : Request)
    (name : String) (timeoutMs : Nat) :
    ∀ n ∈ putTargets (networkFirst env s req name timeoutMs).log, n = name := by
  unfold networkFirst
  simp only
  split
  · split <;> simp [putTargets]
  · split <;> simp [putTargets]

theorem putTargets_handlePartial (env : Env) (s : CacheStorage) (req : Request) :
    ∀ n ∈ putTargets (handlePartial env s req).log, n = CACHE_NAMES.assets := by
  have h := putTargets_networkFirst env s req CACHE_NAMES.assets 4000
  unfold handlePartial
  simp only
  split
  · split <;> simpa [putTargets_append, putTargets] using h
  · exact h

theorem putTargets_handleNavigation (env : Env) (s : CacheStorage) (req : Request) :
    ∀ n ∈ putTargets (handleNavigation env s req).log, n = CACHE_NAMES.pages := by
  have h := putTargets_networkFirst env s req CACHE_NAMES.pages 5000
  unfold handleNavigation
  split
  · unfold navigationCaught; split <;> simp [putTargets]
  · simp [putTargets]
  · simp only
    split
    · unfold navigationCaught
      split <;> simpa [putTargets_append, putTargets] using h
    · exact h

theorem putTargets_staleWhileRevalidate (env : Env) (s : CacheStorage) (req : Request)
    (name : String) :
    ∀ n ∈ putTargets (staleWhileRevalidate env s req name).log, n = name := by
  unfold staleWhileRevalidate
  simp only
  cases ((s.open name).cacheOf name).matchKey req.url <;> cases env.net <;> simp only
  · simp [putTargets]
  · split <;> simp [putTargets]
  · simp [putTargets]
  · split <;> simp [putTargets]

theorem putTargets_fetchAndStoreImage (env : Env) (s : CacheStorage) (req : Request)
    (name : String) :
    ∀ n ∈ putTargets (fetchAndStoreImage env s req name).log, n = name := by
  unfold fetchAndStoreImage
  simp only
  split
  · split
    · split
      · simp [putTargets]
      · split <;> simp [putTargets]
    · simp [putTargets]
  · split <;> simp [putTargets]

theorem putTargets_imageCache (env : Env) (s : CacheStorage) (req : Request) :
    ∀ n ∈ putTargets (imageCache env s req).log, n = CACHE_NAMES.images := by
  unfold imageCache
  simp only
  split
  · split
    · simpa [putTargets_append, putTargets] using putTargets_fetchAndStoreImage env _ req _
    · simp [putTargets]
  · simpa [putTargets_append, putTargets] using putTargets_fetchAndStoreImage env _ req _

theorem putTargets_apiNetworkFirstWithTTL (env : Env) (s : CacheStorage) (req : Request) :
    ∀ n ∈ putTargets (apiNetworkFirstWithTTL env s req).log, n = CACHE_NAMES.api := by
  unfold apiNetworkFirstWithTTL
  simp only
  split
  · split
    · split
      · simp [putTargets]
      · split <;> simp [putTargets]
    · simp [putTargets]
  · split <;> simp [putTargets]

/-- C20, as the claim states it, fails: a request for the header partial
and a request for a script, both answered by the network, are written to
the same namespace, `bse-assets-v7`: the partials have no namespace of
their own. -/
theorem C20_counterexample :
    (onFetch (onlineEnv (pageResponse "header")) []
        (sameOriginGet "cors" "/assets/partials/header.html")).map
      (fun h => (h.strategy, putTargets h.result.log)) =
        some (Strategy.Partial, ["bse-assets-v7"]) ∧
    (onFetch (onlineEnv (pageResponse "script")) [] scriptRequest).map
      (fun h => (h.strategy, putTargets h.result.log)) =
        some (Strategy.StaticAsset, ["bse-assets-v7"]) := by
  decide

/-- C20 (amended): the Partial strategy stores and reads its responses in
the assets namespace, which it shares with the StaticAsset strategy; that
namespace is different from the ones written by the Navigation (pages),
Image (images) and ExternalAPI (api) strategies. -/
theorem C20_partial_shares_assets (env : Env) (s : CacheStorage) (req : Request) :
    (∀ n ∈ putTargets (runStrategy .Partial env s req).log, n = CACHE_NAMES.assets) ∧
    (∀ n ∈ putTargets (runStrategy .StaticAsset env s req).log, n = CACHE_NAMES.assets) ∧
    (∀ n ∈ putTargets (runStrategy .Navigation env s req).log, n = CACHE_NAMES.pages) ∧
    (∀ n ∈ putTargets (runStrategy .Image env s req).log, n = CACHE_NAMES.images) ∧
    (∀ n ∈ putTargets (runStrategy .ExternalAPI env s req).log, n = CACHE_NAMES.api) ∧
    CACHE_NAMES.assets ≠ CACHE_NAMES.pages ∧ CACHE_NAMES.assets ≠ CACHE_NAMES.images ∧
    CACHE_NAMES.assets ≠ CACHE_NAMES.api ∧
    (∀ resp, env.net = some resp → resp.ok = true → env.latency < 4000 →
      putTargets (runStrategy .Partial env s req).log = [CACHE_NAMES.assets] ∧
      (runStrategy .Partial env s req).log =
        [.cachesOpen CACHE_NAMES.assets, .fetch req.url,
          .cachePut CACHE_NAMES.assets req.url]) := by
  refine ⟨putTargets_handlePartial env s req,
    putTargets_staleWhileRevalidate env s req CACHE_NAMES.assets,
    putTargets_handleNavigation env s req, putTargets_imageCache env s req,
    putTargets_apiNetworkFirstWithTTL env s req, by decide, by decide, by decide, ?_⟩
  intro resp hnet hok hlat
  have hlog : (runStrategy .Partial env s req).log =
      [.cachesOpen CACHE_NAMES.assets, .fetch req.url,
        .cachePut CACHE_NAMES.assets req.url] := by
    show (handlePartial env s req).log = _
    unfold handlePartial networkFirst
    simp only [hlat, if_true, hnet, hok]
  exact ⟨by rw [hlog]; rfl, hlog⟩

/-! ## Partials when the network is down (C21) -/

/-- C21: a GET request classified Partial whose network fetch fails or
times out: when no namespace holds a cached copy the handler resolves
with undefined, which is not the offline document; when some namespace
holds a copy the handler resolves with a cached copy. -/
theorem C21_partial_failure (env : Env) (s : CacheStorage) (req : Request)
    (hg : req.method = "GET") (hcl : classify env.origin req = .Partial)
    (hfail : env.net = none ∨ 4000 ≤ env.latency) :
    ∃ h : Handled, onFetch env s req = some h ∧ h.strategy = .Partial ∧
      ((∀ e ∈ s, Cache.matchKey e.2 req.url = none) →
        h.result.outcome = .undefined ∧
        h.result.outcome ≠ .response offlineFallbackResponse) ∧
      ((∃ e ∈ s, Cache.matchKey e.2 req.url ≠ none) →
        ∃ r, h.result.outcome = .response r ∧ ∃ e ∈ s, Cache.matchKey e.2 req.url = some r) := by
  have hon : onFetch env s req =
      some { strategy := .Partial, result := handlePartial env s req } := by
    simp [onFetch, hg, hcl, runStrategy]
  have hnf := networkFirst_failed env s req CACHE_NAMES.assets 4000 hfail
  refine ⟨_, hon, rfl, ?_, ?_⟩
  · intro hall
    have hassets : ((s.open CACHE_NAMES.assets).cacheOf CACHE_NAMES.assets).matchKey req.url =
        none := by
      rw [cacheOf_open_self]
      cases hm : (s.cacheOf CACHE_NAMES.assets).matchKey req.url with
      | none => rfl
      | some c =>
        obtain ⟨e, he, hem⟩ := cacheOf_matchKey_mem _ _ _ _ hm
        rw [hall e he] at hem
        exact absurd hem (by simp)
    have hany : (s.open CACHE_NAMES.assets).matchAny req.url = none := by
      cases hm : (s.open CACHE_NAMES.assets).matchAny req.url with
      | none => rfl
      | some c =>
        obtain ⟨e, he, hem⟩ := matchAny_some _ _ _ hm
        rcases mem_open _ _ _ he with h | h
        · rw [hall e h] at hem; exact absurd hem (by simp)
        · rw [h, matchKey_nil] at hem; exact absurd hem (by simp)
    rw [hassets] at hnf
    have hout : (handlePartial env s req).outcome = .undefined := by
      simp only [handlePartial, hnf, hany]
    exact ⟨hout, by rw [hout]; simp⟩
  · rintro ⟨e0, he0, hne0⟩
    cases hassets : ((s.open CACHE_NAMES.assets).cacheOf CACHE_NAMES.assets).matchKey req.url with
    | some cached =>
      rw [hassets] at hnf
      have hout : (handlePartial env s req).outcome = .response cached := by
        simp only [handlePartial, hnf]
      rw [cacheOf_open_self] at hassets
      exact ⟨cached, hout, cacheOf_matchKey_mem _ _ _ _ hassets⟩
    | none =>
      rw [hassets] at hnf
      cases hany : (s.open CACHE_NAMES.assets).matchAny req.url with
      | none =>
        exact absurd (matchAny_none _ _ hany e0 (subset_open _ _ e0 he0)) hne0
      | some cached =>
        have hout : (handlePartial env s req).outcome = .response cached := by
          simp only [handlePartial, hnf, hany]
        obtain ⟨e, he, hem⟩ := matchAny_some _ _ _ hany
        have hes : e ∈ s := by
          rcases mem_open _ _ _ he with h | h
          · exact h
          · rw [h, matchKey_nil] at hem; exact absurd hem (by simp)
        exact ⟨cached, hout, e, hes, hem⟩

theorem C21_witness :
    ∃ h : Handled, onFetch offlineEnv shellStore headerRequest = some h ∧
      h.strategy = .Partial ∧
      ((∀ e ∈ shellStore, Cache.matchKey e.2 headerRequest.url = none) →
        h.result.outcome = .undefined ∧
        h.result.outcome ≠ .response offlineFallbackResponse) ∧
      ((∃ e ∈ shellStore, Cache.matchKey e.2 headerRequest.url ≠ none) →
        ∃ r, h.result.outcome = .response r ∧
          ∃ e ∈ shellStore, Cache.matchKey e.2 headerRequest.url = some r) :=
  C21_partial_failure offlineEnv shellStore headerRequest rfl (by decide) (Or.inl rfl)

/-! ## Navigation write-through (C22) -/

/-- C22, as the claim states it, fails: a navigation request without a
preload response whose fetch completes with an ok response `R` that the
store refuses to write (here status 206, which the platform never
stores): the handler returns `R` and the pages namespace holds nothing
under the request. -/
theorem C22_counterexample :
    homeRequest.method = "GET" ∧ homeRequest.mode = "navigate" ∧
      (refusingEnv partialContent).preload = .absent ∧
      (refusingEnv partialContent).net = some partialContent ∧ partialContent.ok = true ∧
      (onFetch (refusingEnv partialContent) [] homeRequest).map
        (fun h => h.result.outcome) = some (.response partialContent) ∧
      (onFetch (refusingEnv partialContent) [] homeRequest).map
        (fun h => (h.result.caches.cacheOf CACHE_NAMES.pages).matchKey homeRequest.url) =
          some none := by
  decide

/-- C22 (amended): a navigation GET request without a preload response
whose fetch settles before the timer with a response `R`: the handler
returns `R`; when `R` is ok and the write succeeds, the pages namespace
holds `R` under the request; when `R` is ok and the write fails, or `R` is
not ok, every namespace has the entries it had. -/
theorem C22_navigation_write_through (env : Env) (s : CacheStorage) (req : Request)
    (R : Response) (hg : req.method = "GET") (hnav : req.mode = "navigate")
    (hpre : env.preload = .absent) (hlat : env.latency < 5000) (hnet : env.net = some R) :
    ∃ h : Handled, onFetch env s req = some h ∧ h.strategy = .Navigation ∧
      h.result.outcome = .response R ∧
      (R.ok = true → env.putOk = true →
        (h.result.caches.cacheOf CACHE_NAMES.pages).matchKey req.url = some R) ∧
      (R.ok = true → env.putOk = false → ∀ n, h.result.caches.cacheOf n = s.cacheOf n) ∧
      (R.ok = false → ∀ n, h.result.caches.cacheOf n = s.cacheOf n) := by
  have hcl : classify env.origin req = .Navigation := by simp [classify, hnav]
  have hon : onFetch env s req =
      some { strategy := .Navigation, result := handleNavigation env s req } := by
    simp [onFetch, hg, hcl, runStrategy]
  refine ⟨_, hon, rfl, ?_, ?_, ?_, ?_⟩
  · cases hok : R.ok <;>
      simp [handleNavigation, hpre, networkFirst, hlat, hnet, hok]
  · intro hok hput
    have : (handleNavigation env s req).caches =
        (s.open CACHE_NAMES.pages).put true CACHE_NAMES.pages req.url R := by
      simp [handleNavigation, hpre, networkFirst, hlat, hnet, hok, hput]
    show ((handleNavigation env s req).caches.cacheOf CACHE_NAMES.pages).matchKey req.url = _
    rw [this]
    simp only [CacheStorage.put, if_true]
    rw [cacheOf_modify_self _ _ _ (mem_keys_open s _)]
    exact matchKey_put_self _ _ _
  · intro hok hput n
    have : (handleNavigation env s req).caches = s.open CACHE_NAMES.pages := by
      simp [handleNavigation, hpre, networkFirst, hlat, hnet, hok, hput, CacheStorage.put]
    show (handleNavigation env s req).caches.cacheOf n = _
    rw [this, cacheOf_open]
  · intro hok n
    have : (handleNavigation env s req).caches = s.open CACHE_NAMES.pages := by
      simp [handleNavigation, hpre, networkFirst, hlat, hnet, hok]
    show (handleNavigation env s req).caches.cacheOf n = _
    rw [this, cacheOf_open]

theorem C22_witness :
    ∃ h : Handled, onFetch (onlineEnv (pageResponse "home")) [] homeRequest = some h ∧
      h.strategy = .Navigation ∧
      h.result.outcome = .response (pageResponse "home") ∧
      ((pageResponse "home").ok = true → (onlineEnv (pageResponse "home")).putOk = true →
        (h.result.caches.cacheOf CACHE_NAMES.pages).matchKey homeRequest.url =
          some (pageResponse "home")) ∧
      ((pageResponse "home").ok = true → (onlineEnv (pageResponse "home")).putOk = false →
        ∀ n, h.result.caches.cacheOf n = CacheStorage.cacheOf [] n) ∧
      ((pageResponse "home").ok = false →
        ∀ n, h.result.caches.cacheOf n = CacheStorage.cacheOf [] n) :=
  C22_navigation_write_through (onlineEnv (pageResponse "home")) [] homeRequest
    (pageResponse "home") rfl rfl rfl (by decide) rfl

/-! ## Requests that are not GET (C23) -/

/-- C23: for a request whose method is not GET the fetch handler returns
without answering (no `respondWith`): no executor runs, so no cache is
read or written, and the store after the event is the store before it. -/
theorem C23_non_get_passthrough (env : Env) (s : CacheStorage) (req : Request)
    (hm : req.method ≠ "GET") :
    onFetch env s req = none ∧ storeAfterFetch env s req = s := by
  have h : onFetch env s req = none := by simp [onFetch, hm]
  exact ⟨h, by simp [storeAfterFetch, h]⟩

theorem C23_witness :
    onFetch (onlineEnv (pageResponse "saved")) shellStore postRequest = none ∧
      storeAfterFetch (onlineEnv (pageResponse "saved")) shellStore postRequest = shellStore :=
  C23_non_get_passthrough (onlineEnv (pageResponse "saved")) shellStore postRequest (by decide)

/-! ## A failed store write (C24) -/

theorem networkFirst_putOk (env : Env) (b : Bool) (s : CacheStorage) (req : Request)
    (name : String) (t : Nat) :
    (networkFirst { env with putOk := b } s req name t).outcome =
        (networkFirst env s req name t).outcome ∧
      ((networkFirst env s req name t).outcome = .rejected →
        (networkFirst { env with putOk := b } s req name t).caches =
          (networkFirst env s req name t).caches) ∧
      (networkFirst { env with putOk := b } s req name t).log =
        (networkFirst env s req name t).log := by
  unfold networkFirst
  simp only
  split
  · split <;> simp
  · split <;> simp

theorem handleNavigation_putOk (env : Env) (b : Bool) (s : CacheStorage) (req : Request) :
    (handleNavigation { env with putOk := b } s req).outcome =
      (handleNavigation env s req).outcome := by
  obtain ⟨o, n, l, p, nw, sn, pk⟩ := env
  obtain ⟨h1, h2, h3⟩ := networkFirst_putOk ⟨o, n, l, p, nw, sn, pk⟩ b s req CACHE_NAMES.pages 5000
  simp only at h1 h2 h3
  unfold handleNavigation
  simp only
  cases p with
  | rejected => rfl
  | response p => rfl
  | absent =>
    simp only
    cases hr : (networkFirst ⟨o, n, l, .absent, nw, sn, pk⟩ s req CACHE_NAMES.pages 5000).outcome with
    | rejected =>
      rw [hr] at h1
      simp only [h1, h2 hr, h3]
    | response r => rw [hr] at h1; simp only [h1, hr]
    | null => rw [hr] at h1; simp only [h1, hr]
    | undefined => rw [hr] at h1; simp only [h1, hr]

theorem handlePartial_putOk (env : Env) (b : Bool) (s : CacheStorage) (req : Request) :
    (handlePartial { env with putOk := b } s req).outcome =
      (handlePartial env s req).outcome := by
  obtain ⟨h1, h2, h3⟩ := networkFirst_putOk env b s req CACHE_NAMES.assets 4000
  unfold handlePartial
  simp only
  cases hr : (networkFirst env s req CACHE_NAMES.assets 4000).outcome with
  | rejected =>
    rw [hr] at h1
    simp only [h1, h2 hr, h3]
  | response r => rw [hr] at h1; simp only [h1, hr]
  | null => rw [hr] at h1; simp only [h1, hr]
  | undefined => rw [hr] at h1; simp only [h1, hr]

theorem staleWhileRevalidate_putOk (env : Env) (b : Bool) (s : CacheStorage) (req : Request)
    (name : String) :
    (staleWhileRevalidate { env with putOk := b } s req name).outcome =
      (staleWhileRevalidate env s req name).outcome := by
  rw [swr_outcome, swr_outcome]

theorem fetchAndStoreImage_putOk (env : Env) (b : Bool) (s : CacheStorage) (req : Request)
    (name : String) :
    (fetchAndStoreImage { env with putOk := b } s req name).outcome =
      (fetchAndStoreImage env s req name).outcome := by
  unfold fetchAndStoreImage
  simp only
  split
  · split
    · split
      · rfl
      · split <;> rfl
    · rfl
  · split <;> rfl

theorem imageCache_putOk (env : Env) (b : Bool) (s : CacheStorage) (req : Request) :
    (imageCache { env with putOk := b } s req).outcome = (imageCache env s req).outcome := by
  unfold imageCache
  simp only
  split
  · split
    · exact fetchAndStoreImage_putOk env b _ req _
    · rfl
  · exact fetchAndStoreImage_putOk env b _ req _

theorem apiNetworkFirstWithTTL_putOk (env : Env) (b : Bool) (s : CacheStorage)
    (req : Request) :
    (apiNetworkFirstWithTTL { env with putOk := b } s req).outcome =
      (apiNetworkFirstWithTTL env s req).outcome := by
  unfold apiNetworkFirstWithTTL
  simp only
  split
  · split
    · split
      · rfl
      · split <;> rfl
    · rfl
  · split <;> rfl

theorem runStrategy_putOk (st : Strategy) (env : Env) (b : Bool) (s : CacheStorage)
    (req : Request) :
    (runStrategy st { env with putOk := b } s req).outcome =
      (runStrategy st env s req).outcome := by
  cases st with
  | Navigation => exact handleNavigation_putOk env b s req
  | Partial => exact handlePartial_putOk env b s req
  | StaticAsset => exact staleWhileRevalidate_putOk env b s req _
  | Image => exact imageCache_putOk env b s req
  | SensitiveBypass => rfl
  | ExternalAPI => exact apiNetworkFirstWithTTL_putOk env b s req
  | Default => rfl

/-- C24: for every branch of the fetch handler, every request, store and
network outcome, the handler settles the same way whether the `cache.put`
it issues succeeds or fails: the response returned is the same, and a
failing put never turns the result into a rejection. -/
theorem C24_failed_write_never_fails_request (st : Strategy) (env : Env) (s : CacheStorage)
    (req : Request) :
    (runStrategy st { env with putOk := false } s req).outcome =
        (runStrategy st { env with putOk := true } s req).outcome ∧
      ((runStrategy st { env with putOk := true } s req).outcome ≠ .rejected →
        (runStrategy st { env with putOk := false } s req).outcome ≠ .rejected) ∧
      (onFetch { env with putOk := false } s req).map (fun h => h.result.outcome) =
        (onFetch { env with putOk := true } s req).map (fun h => h.result.outcome) := by
  have h : (runStrategy st { env with putOk := false } s req).outcome =
      (runStrategy st { env with putOk := true } s req).outcome := by
    rw [runStrategy_putOk st env false, runStrategy_putOk st env true]
  refine ⟨h, fun hne => by rw [h]; exact hne, ?_⟩
  unfold onFetch
  simp only
  split
  · rfl
  · simp only [Option.map_some']
    rw [runStrategy_putOk _ env false, runStrategy_putOk _ env true]

/-! ## PING, GET_VERSION and unknown messages (C25) -/

/-- C25: whatever the store holds, also the store a CLEAR_CACHES message
left, a PING from a source is answered with PONG and version v7 and a
GET_VERSION with SW_VERSION and version v7; PING, GET_VERSION,
SKIP_WAITING and every message that is not CLEAR_CACHES leave the store
as it was. -/
theorem C25_ping_and_version (hasSource : Bool) (s : CacheStorage) (data : MessageData) :
    (onMessage true (.text "PING") s).reply = some (.pong "v7") ∧
      (onMessage true (.text "GET_VERSION") s).reply = some (.swVersion "v7") ∧
      (onMessage true (.text "PING")
        (onMessage hasSource (.object (some "CLEAR_CACHES")) s).caches).reply =
          some (.pong "v7") ∧
      (onMessage true (.text "GET_VERSION")
        (onMessage hasSource (.object (some "CLEAR_CACHES")) s).caches).reply =
          some (.swVersion "v7") ∧
      (onMessage hasSource (.text "PING") s).caches = s ∧
      (onMessage hasSource (.text "GET_VERSION") s).caches = s ∧
      (data ≠ .object (some "CLEAR_CACHES") → (onMessage hasSource data s).caches = s) := by
  refine ⟨rfl, rfl, rfl, rfl, rfl, rfl, ?_⟩
  intro hd
  unfold onMessage
  split
  · rfl
  · rfl
  · rfl
  · exact absurd rfl hd
  · rfl

/-! ## The default branch (C26) -/

/-- C26: a GET request that the handler classifies as Default gets the
cached copy of the first namespace that holds one, with no network fetch;
without a cached copy it gets the network response, and undefined, not an
error, when the network fails; the store is never written. -/
theorem C26_default_branch (env : Env) (s : CacheStorage) (req : Request)
    (hg : req.method = "GET") (hcl : classify env.origin req = .Default) :
    ∃ h : Handled, onFetch env s req = some h ∧ h.strategy = .Default ∧
      ((∃ e ∈ s, Cache.matchKey e.2 req.url ≠ none) →
        ∃ r, h.result.outcome = .response r ∧ (∃ e ∈ s, Cache.matchKey e.2 req.url = some r) ∧
          ∀ x ∈ h.result.log, x.isFetch = false) ∧
      ((∀ e ∈ s, Cache.matchKey e.2 req.url = none) →
        h.result.outcome =
          match env.net with
          | some resp => .response resp
          | none => .undefined) ∧
      h.result.outcome ≠ .rejected ∧ h.result.caches = s ∧
      ∀ x ∈ h.result.log, x.isWrite = false := by
  have hon : onFetch env s req =
      some { strategy := .Default, result := handleDefault env s req } := by
    simp [onFetch, hg, hcl, runStrategy]
  refine ⟨_, hon, rfl, ?_, ?_, ?_, handleDefault_caches env s req, ?_⟩
  · rintro ⟨e0, he0, hne0⟩
    cases hany : s.matchAny req.url with
    | none => exact absurd (matchAny_none _ _ hany e0 he0) hne0
    | some c =>
      refine ⟨c, by simp only [handleDefault, hany], matchAny_some _ _ _ hany, ?_⟩
      intro x hx
      simp only [handleDefault, hany, List.mem_singleton] at hx
      rw [hx]; rfl
  · intro hall
    have hany : s.matchAny req.url = none := by
      cases hm : s.matchAny req.url with
      | none => rfl
      | some c =>
        obtain ⟨e, he, hem⟩ := matchAny_some _ _ _ hm
        rw [hall e he] at hem; exact absurd hem (by simp)
    simp only [handleDefault, hany]
    split <;> rfl
  · simp only [handleDefault]
    split
    · simp
    · split <;> simp
  · intro x hx
    simp only [handleDefault] at hx
    split at hx
    · simp only [List.mem_singleton] at hx; rw [hx]; rfl
    · split at hx <;>
        (simp only [List.mem_cons, List.mem_singleton, List.not_mem_nil, or_false] at hx
         rcases hx with hx | hx <;> rw [hx] <;> rfl)

theorem C26_witness :
    ∃ h : Handled, onFetch offlineEnv shellStore fontRequest = some h ∧
      h.strategy = .Default ∧
      ((∃ e ∈ shellStore, Cache.matchKey e.2 fontRequest.url ≠ none) →
        ∃ r, h.result.outcome = .response r ∧
          (∃ e ∈ shellStore, Cache.matchKey e.2 fontRequest.url = some r) ∧
          ∀ x ∈ h.result.log, x.isFetch = false) ∧
      ((∀ e ∈ shellStore, Cache.matchKey e.2 fontRequest.url = none) →
        h.result.outcome =
          match offlineEnv.net with
          | some resp => .response resp
          | none => .undefined) ∧
      h.result.outcome ≠ .rejected ∧ h.result.caches = shellStore ∧
      ∀ x ∈ h.result.log, x.isWrite = false :=
  C26_default_branch offlineEnv shellStore fontRequest rfl (by decide)

/-! ## The timestamp header: written, read back, compared (C27) -/

theorem remove_filter_self (h : List (String × String)) (name : String) :
    (Headers.remove h name).filter (fun p => p.1 == name) = [] := by
  unfold Headers.remove
  rw [List.filter_filter, List.filter_eq_nil_iff]
  intro p _
  cases (p.1 == name) <;> simp

theorem set_filter_self (h : List (String × String)) (name value : String) :
    ((Headers.set h name value).filter (fun p => p.1 == name)).map (fun p => p.2) = [value] := by
  induction h with
  | nil => simp [Headers.set]
  | cons p t ih =>
    obtain ⟨n, v⟩ := p
    unfold Headers.set
    by_cases hn : (n == name) = true
    · simp only [hn, if_true]
      rw [List.filter_cons]
      simp only [beq_self_eq_true, if_true, remove_filter_self, List.map_cons, List.map_nil]
    · have hb : (n == name) = false := by simpa using hn
      simp only [hb, Bool.false_eq_true, if_false]
      rw [List.filter_cons]
      simp only [hb, Bool.false_eq_true, if_false]
      exact ih

/-- The stamp that `headers.set` writes is what `headers.get` reads. -/
theorem get_set_self (h : List (String × String)) (name value : String) :
    Headers.get (Headers.set h name value) name = some value := by
  unfold Headers.get
  rw [set_filter_self]
  rfl

theorem imageCache_of_stamp (env : Env) (s : CacheStorage) (req : Request) (e : Response)
    (T : Nat) (hc : (s.cacheOf CACHE_NAMES.images).matchKey req.url = some e)
    (hT : Headers.get e.headers "sw-cached-at" = some (toString T)) :
    (Effect.fetch req.url ∈ (imageCache env s req).log ↔
      (env.now : Int) - T > MAX_IMAGE_AGE) := by
  have hmem := mem_keys_of_matchKey _ _ _ _ hc
  have hopen : s.open CACHE_NAMES.images = s := open_eq_self_of_mem _ _ hmem
  by_cases hage : (env.now : Int) - (T : Int) > (MAX_IMAGE_AGE : Int)
  · have hexp : decide ((env.now : Int) - (T : Int) > (MAX_IMAGE_AGE : Int)) = true := by
      simp only [decide_eq_true_eq]; exact hage
    refine ⟨fun _ => hage, fun _ => ?_⟩
    unfold imageCache
    simp only [hopen, hc, hT, toString_ne_empty, parseInt_toString, hexp, beq_iff_eq, if_false,
      if_true]
    apply List.mem_append_right
    exact fetch_mem_log_fetchAndStoreImage _ _ _ _
  · have hexp : decide ((env.now : Int) - (T : Int) > (MAX_IMAGE_AGE : Int)) = false := by
      simp only [decide_eq_false_iff_not]; exact hage
    refine ⟨fun hin => ?_, fun h => absurd h hage⟩
    exfalso
    unfold imageCache at hin
    simp only [hopen, hc, hT, toString_ne_empty, parseInt_toString, hexp, beq_iff_eq, if_false,
      Bool.false_eq_true] at hin
    simp at hin

theorem api_of_stamp (env : Env) (s : CacheStorage) (req : Request) (e : Response)
    (T : Nat) (hfail : env.net = none)
    (hc : (s.cacheOf CACHE_NAMES.api).matchKey req.url = some e)
    (hT : Headers.get e.headers "sw-fetched-at" = some (toString T)) :
    ((apiNetworkFirstWithTTL env s req).outcome = .response e ↔
      T ≠ 0 ∧ (env.now : Int) - T < MAX_API_AGE) := by
  have hval : (apiNetworkFirstWithTTL env s req).outcome =
      if (decide ((T : Int) ≠ 0) &&
          decide ((env.now : Int) - (T : Int) < (MAX_API_AGE : Int))) = true
      then .response e else .rejected := by
    unfold apiNetworkFirstWithTTL
    simp only [hfail, cacheOf_open_self, hc, hT, toString_ne_empty, parseInt_toString,
      beq_iff_eq, if_false]
  rw [hval]
  constructor
  · intro h
    split at h
    · rename_i hb
      simp only [Bool.and_eq_true, decide_eq_true_eq] at hb
      exact ⟨by exact_mod_cast hb.1, hb.2⟩
    · exact absurd h (by simp)
  · rintro ⟨h0, hlt⟩
    have hb : (decide ((T : Int) ≠ 0) &&
        decide ((env.now : Int) - (T : Int) < (MAX_API_AGE : Int))) = true := by
      simp only [Bool.and_eq_true, decide_eq_true_eq]
      exact ⟨by exact_mod_cast h0, hlt⟩
    rw [if_pos hb]

/-- C27: for every clock value `t`, the header written at store time holds
the decimal text of `t` and base-10 parsing reads `t` back from it, for
`sw-cached-at` and for `sw-fetched-at`; the copies the image and API
branches build carry the clock reading in that header; and the age the
code compares with the time to live is `now - t`: an image entry stamped
`t` is fetched again exactly when `now - t` exceeds thirty days, and an
API entry stamped `t` is served after a failure exactly when `t` is not
zero and `now - t` is below six hours. -/
theorem C27_timestamp_round_trip (t : Nat) (env : Env) (s : CacheStorage) (req : Request)
    (R : Response) :
    Headers.get (Headers.set R.headers "sw-cached-at" (toString t)) "sw-cached-at" =
        some (toString t) ∧
      Headers.get (Headers.set R.headers "sw-fetched-at" (toString t)) "sw-fetched-at" =
        some (toString t) ∧
      parseInt (toString t) = some (t : Int) ∧
      (env.net = some R → R.ok = true → nullBodyStatus R.status = false →
        (fetchAndStoreImage env s req CACHE_NAMES.images).outcome = .response
          { R with headers := Headers.set R.headers "sw-cached-at" (toString env.stampNow) } ∧
        (apiNetworkFirstWithTTL env s req).outcome = .response
          { R with headers := Headers.set R.headers "sw-fetched-at" (toString env.stampNow) }) ∧
      (∀ e, (s.cacheOf CACHE_NAMES.images).matchKey req.url = some e →
        Headers.get e.headers "sw-cached-at" = some (toString t) →
        (Effect.fetch req.url ∈ (imageCache env s req).log ↔
          (env.now : Int) - t > MAX_IMAGE_AGE)) ∧
      (∀ e, env.net = none → (s.cacheOf CACHE_NAMES.api).matchKey req.url = some e →
        Headers.get e.headers "sw-fetched-at" = some (toString t) →
        ((apiNetworkFirstWithTTL env s req).outcome = .response e ↔
          t ≠ 0 ∧ (env.now : Int) - t < MAX_API_AGE)) := by
  refine ⟨get_set_self _ _ _, get_set_self _ _ _, parseInt_toString t, ?_, ?_, ?_⟩
  · intro hnet hok hbody
    rw [fetchAndStoreImage_ok env s req _ R hnet hok hbody,
      apiNetworkFirstWithTTL_ok env s req R hnet hok hbody]
    exact ⟨rfl, rfl⟩
  · intro e hc hT
    exact imageCache_of_stamp env s req e t hc hT
  · intro e hfail hc hT
    exact api_of_stamp env s req e t hfail hc hT

/-! ## Navigation preload (C28) -/

/-- C28, as the claim states it, fails: a navigation request whose preload
promise gives a response `P` that the store refuses to write (here status
206, which the platform never stores): the handler returns `P`, without a
fetch, and the pages namespace holds nothing under the request. -/
theorem C28_counterexample :
    homeRequest.method = "GET" ∧ homeRequest.mode = "navigate" ∧
      (preloadRefusingEnv partialContent).preload = .response partialContent ∧
      (onFetch (preloadRefusingEnv partialContent) [] homeRequest).map
        (fun h => h.result.outcome) = some (.response partialContent) ∧
      (onFetch (preloadRefusingEnv partialContent) [] homeRequest).map
        (fun h => (h.result.caches.cacheOf CACHE_NAMES.pages).matchKey homeRequest.url) =
          some none := by
  decide

/-- C28 (amended): a navigation GET request whose preload promise gives a
response `P` is answered with `P`; a write of `P` to the pages namespace
under the request is issued; when that write succeeds the namespace
holds `P`, when it fails every namespace has the entries it had; no
network fetch is issued: `networkFirst` does not run. -/
theorem C28_navigation_preload (env : Env) (s : CacheStorage) (req : Request) (P : Response)
    (hg : req.method = "GET") (hnav : req.mode = "navigate")
    (hpre : env.preload = .response P) :
    ∃ h : Handled, onFetch env s req = some h ∧ h.strategy = .Navigation ∧
      h.result.outcome = .response P ∧
      h.result.log =
        [.cachesOpen CACHE_NAMES.pages, .cachePut CACHE_NAMES.pages req.url] ∧
      (∀ x ∈ h.result.log, x.isFetch = false) ∧
      (env.putOk = true →
        (h.result.caches.cacheOf CACHE_NAMES.pages).matchKey req.url = some P) ∧
      (env.putOk = false → ∀ n, h.result.caches.cacheOf n = s.cacheOf n) := by
  have hcl : classify env.origin req = .Navigation := by simp [classify, hnav]
  have hon : onFetch env s req =
      some { strategy := .Navigation, result := handleNavigation env s req } := by
    simp [onFetch, hg, hcl, runStrategy]
  have hres : handleNavigation env s req =
      { outcome := .response P
        caches := (s.open CACHE_NAMES.pages).put env.putOk CACHE_NAMES.pages req.url P
        log := [.cachesOpen CACHE_NAMES.pages, .cachePut CACHE_NAMES.pages req.url] } := by
    simp only [handleNavigation, hpre]
  refine ⟨_, hon, rfl, by rw [hres], by rw [hres], ?_, ?_, ?_⟩
  · intro x hx
    rw [hres] at hx
    simp only [List.mem_cons, List.mem_singleton, List.not_mem_nil, or_false] at hx
    rcases hx with hx | hx <;> rw [hx] <;> rfl
  · intro hput
    show ((handleNavigation env s req).caches.cacheOf CACHE_NAMES.pages).matchKey req.url = _
    rw [hres]
    simp only [hput, CacheStorage.put, if_true]
    rw [cacheOf_modify_self _ _ _ (mem_keys_open s _)]
    exact matchKey_put_self _ _ _
  · intro hput n
    show (handleNavigation env s req).caches.cacheOf n = _
    rw [hres]
    simp only [hput, CacheStorage.put, Bool.false_eq_true, if_false]
    exact cacheOf_open _ _ _

theorem C28_witness :
    ∃ h : Handled, onFetch (preloadEnv (pageResponse "home")) [] homeRequest = some h ∧
      h.strategy = .Navigation ∧
      h.result.outcome = .response (pageResponse "home") ∧
      h.result.log =
        [.cachesOpen CACHE_NAMES.pages, .cachePut CACHE_NAMES.pages homeRequest.url] ∧
      (∀ x ∈ h.result.log, x.isFetch = false) ∧
      ((preloadEnv (pageResponse "home")).putOk = true →
        (h.result.caches.cacheOf CACHE_NAMES.pages).matchKey homeRequest.url =
          some (pageResponse "home")) ∧
      ((preloadEnv (pageResponse "home")).putOk = false →
        ∀ n, h.result.caches.cacheOf n = CacheStorage.cacheOf [] n) :=
  C28_navigation_preload (preloadEnv (pageResponse "home")) [] homeRequest
    (pageResponse "home") rfl rfl rfl

/-! ## Precached scripts and the script branch (C29) -/

/-- C29, at an input where the code departs from it: after an install in
which every manifest URL was fetched, the shell namespace holds the
reader script and the Gemini client script; with the network down, a GET
for either script takes the CSS/JS branch, which looks only in the assets
namespace, finds nothing and resolves with `null`: the precached entry is
not served. -/
theorem C29_precached_script_not_served_offline :
    (onInstall allReachable []).fulfilled = true ∧
      ((onInstall allReachable []).caches.cacheOf CACHE_NAMES.shell).matchKey
        scriptRequest.url = some (pageResponse "precached") ∧
      ((onInstall allReachable []).caches.cacheOf CACHE_NAMES.shell).matchKey
        (sameOriginGet "no-cors" "/assets/js/geminiClient.js").url =
          some (pageResponse "precached") ∧
      (onFetch offlineEnv (onInstall allReachable []).caches scriptRequest).map
        (fun h => (h.strategy, h.result.outcome)) = some (Strategy.StaticAsset, Outcome.null) ∧
      (onFetch offlineEnv (onInstall allReachable []).caches
          (sameOriginGet "no-cors" "/assets/js/geminiClient.js")).map
        (fun h => (h.strategy, h.result.outcome)) = some (Strategy.StaticAsset, Outcome.null) := by
  decide

/-! ## A write that races with a trim (C30) -/

theorem applyDeletes_eq (s : CacheStorage) (name : String) (ks : List String) :
    applyDeletes s name ks =
      s.modify name (fun c => c.filter (fun e => decide (e.1 ∉ ks))) := by
  unfold applyDeletes
  rw [foldl_modify_delete]
  congr 1
  funext c
  exact foldl_delete_eq_filter ks c

/-- The function `trimCache` is its plan followed by its deletes. -/
theorem trimCache_eq_plan (s : CacheStorage) (name : String) (K : Nat) :
    trimCache s name K = applyDeletes (s.open name) name (trimPlan s name K) := by
  unfold trimCache trimPlan applyDeletes
  simp only
  split
  · rfl
  · rfl

theorem trimPlan_subset (s : CacheStorage) (name : String) (K : Nat) :
    ∀ k ∈ trimPlan s name K, k ∈ Cache.keys (s.cacheOf name) := by
  intro k hk
  unfold trimPlan at hk
  simp only [cacheOf_open_self] at hk
  split at hk
  · exact absurd hk (List.not_mem_nil _)
  · exact List.mem_of_mem_take hk

theorem matchKey_append_last (l : Cache) (url : String) (r : Response)
    (h : ∀ e ∈ l, e.1 ≠ url) : Cache.matchKey (l ++ [(url, r)]) url = some r := by
  unfold Cache.matchKey
  rw [List.find?_append]
  have hnone : l.find? (fun e => e.1 == url) = none := by
    rw [List.find?_eq_none]
    intro e he
    simpa using h e he
  rw [hnone]
  simp

theorem mem_keys_applyDeletes (s : CacheStorage) (name : String) (ks : List String)
    (h : name ∈ s.keys) : name ∈ (applyDeletes s name ks).keys := by
  rw [applyDeletes_eq, keys_modify]; exact h

/-- C30, as the claim states it, fails: the images namespace holds three
entries and the trim to two entries has read its key list, whose oldest
key is `/a.png`; a write under `/a.png` lands before the delete; the
delete, by key, removes the entry that was just written. -/
theorem C30_counterexample :
    trimPlan threeImages "bse-img" 2 = ["/a.png"] ∧
      ((threeImages.put true "bse-img" "/a.png" (pageResponse "new a")).cacheOf
        "bse-img").matchKey "/a.png" = some (pageResponse "new a") ∧
      ((trimRacingWrite threeImages "bse-img" 2 0 "/a.png" (pageResponse "new a")).cacheOf
        "bse-img").matchKey "/a.png" = none := by
  decide

/-- C30 (amended): `trimCache` is the deletes, by key, of the keys it chose
from the key list it read at its start, all of them keys of that list; an
entry written while the trim runs, after that read and at any point
between its deletes, under a key that is not one of the chosen keys (so
under any key the namespace did not hold at the read) is still present
when the trim finishes. -/
theorem C30_racing_write_survives (s : CacheStorage) (name : String) (K i : Nat)
    (url : String) (r : Response) (hkey : url ∉ trimPlan s name K) :
    trimCache s name K = applyDeletes (s.open name) name (trimPlan s name K) ∧
      (∀ k ∈ trimPlan s name K, k ∈ Cache.keys (s.cacheOf name)) ∧
      ((trimRacingWrite s name K i url r).cacheOf name).matchKey url = some r := by
  refine ⟨trimCache_eq_plan s name K, trimPlan_subset s name K, ?_⟩
  have h1 : name ∈ (applyDeletes (s.open name) name ((trimPlan s name K).take i)).keys :=
    mem_keys_applyDeletes _ _ _ (mem_keys_open s name)
  have h2 : name ∈ ((applyDeletes (s.open name) name ((trimPlan s name K).take i)).put true
      name url r).keys := by
    simp only [CacheStorage.put, if_true]
    rw [keys_modify]; exact h1
  have hdrop : url ∉ (trimPlan s name K).drop i :=
    fun hc => hkey (List.mem_of_mem_drop hc)
  unfold trimRacingWrite
  simp only
  rw [applyDeletes_eq _ _ ((trimPlan s name K).drop i), cacheOf_modify_self _ _ _ h2]
  simp only [CacheStorage.put, if_true]
  rw [cacheOf_modify_self _ _ _ h1]
  unfold Cache.put
  rw [List.filter_append]
  have hlast : [(url, r)].filter (fun e => decide (e.1 ∉ (trimPlan s name K).drop i)) =
      [(url, r)] := by
    simp [hdrop]
  rw [hlast]
  apply matchKey_append_last
  intro e he
  have he2 := (List.mem_filter.mp he).1
  unfold Cache.delete at he2
  have := (List.mem_filter.mp he2).2
  simpa using this

theorem C30_witness :
    ((trimRacingWrite threeImages "bse-img" 2 0 "/d.png" (pageResponse "d")).cacheOf
      "bse-img").matchKey "/d.png" = some (pageResponse "d") :=
  (C30_racing_write_survives threeImages "bse-img" 2 0 "/d.png" (pageResponse "d")
    (by decide)).2.2


end SW
